import Mathlib

/-!
Verification of the recipe ingredient-processing core (IngredientProcessor,
ShoppingListGenerator, ShoppingListManager.scaleQuantities, ReminderFormatter)
against its natural-language specification.

JavaScript strings are modelled as `List Char`; JavaScript numbers are modelled
as `ℚ` (all quantity arithmetic in the code is on small decimals/fractions, and
every value any theorem below inspects is exactly representable; the one
acknowledged deviation is division by a zero denominator, where JS produces
Infinity and `ℚ` produces 0 — no theorem below exercises that case).  Where IEEE
special values matter (the scale-multiplier check), numbers are instead modelled
by the inductive `JSNum` with explicit NaN/±Infinity.  Nullable fields are
`Option`; fallible operations return `Except` carrying the error string.
-/

deriving instance DecidableEq for Except

/-- ASCII decimal digit, JS regex `\d`. -/
def isDigitC (c : Char) : Bool := 48 ≤ c.toNat && c.toNat ≤ 57

/-- JS regex `\w`: ASCII letters, digits and underscore. -/
def isWordC (c : Char) : Bool :=
  (48 ≤ c.toNat && c.toNat ≤ 57) || (65 ≤ c.toNat && c.toNat ≤ 90) ||
  (97 ≤ c.toNat && c.toNat ≤ 122) || c.toNat = 95

/-- ASCII lower-case letter. -/
def isAsciiLowerC (c : Char) : Bool := 97 ≤ c.toNat && c.toNat ≤ 122

/-- JS regex `\s` / `String.prototype.trim` whitespace set (WhiteSpace ∪ LineTerminator). -/
def isJsSpace (c : Char) : Bool :=
  c.toNat = 32 || c.toNat = 9 || c.toNat = 10 || c.toNat = 11 || c.toNat = 12 ||
  c.toNat = 13 || c.toNat = 160 || c.toNat = 5760 ||
  (8192 ≤ c.toNat && c.toNat ≤ 8202) || c.toNat = 8232 || c.toNat = 8233 ||
  c.toNat = 8239 || c.toNat = 8287 || c.toNat = 12288 || c.toNat = 65279

/-- JS `String.prototype.toLowerCase`, restricted to the ASCII range (every string
any claim exercises is ASCII). -/
def jsToLower (c : Char) : Char :=
  if 65 ≤ c.toNat ∧ c.toNat ≤ 90 then Char.ofNat (c.toNat + 32) else c

/-- JS `String.prototype.toUpperCase`, restricted to the ASCII range. -/
def jsToUpper (c : Char) : Char :=
  if 97 ≤ c.toNat ∧ c.toNat ≤ 122 then Char.ofNat (c.toNat - 32) else c

/-- Drop leading JS whitespace. -/
def trimStart (l : List Char) : List Char := l.dropWhile isJsSpace

/-- Drop trailing JS whitespace. -/
def trimEnd (l : List Char) : List Char := (l.reverse.dropWhile isJsSpace).reverse

/-- JS `String.prototype.trim`. -/
def jsTrim (l : List Char) : List Char := trimEnd (trimStart l)

/-- Boolean list-prefix test. -/
def isPrefixB : List Char → List Char → Bool
  | [], _ => true
  | _ :: _, [] => false
  | a :: as, b :: bs => if a = b then isPrefixB as bs else false

/-- Boolean substring test, JS `String.prototype.includes`. -/
def isInfixB : List Char → List Char → Bool
  | n, [] => isPrefixB n []
  | n, c :: t => isPrefixB n (c :: t) || isInfixB n t

/-- Decimal value of a digit string (the value `parseInt`/`parseFloat` assign to
an all-digit string). -/
def digitsVal (l : List Char) : ℕ := l.foldl (fun a c => 10 * a + (c.toNat - 48)) 0

/-- JS `a || b` on two strings: `b` when `a` is the empty string. -/
def jsOr (a b : List Char) : List Char := if a = [] then b else a

/-- JS `a || b` where `a` is a nullable string. -/
def jsOrOpt (a : Option (List Char)) (b : List Char) : List Char :=
  match a with
  | some s => jsOr s b
  | none => b

/-- IngredientProcessor.unitMap, in source order. -/
def unitMap : List (List Char × List Char) :=
  [("tbsp".toList, "tablespoon".toList),
   ("tablespoons".toList, "tablespoon".toList),
   ("tsp".toList, "teaspoon".toList),
   ("teaspoons".toList, "teaspoon".toList),
   ("cup".toList, "cup".toList),
   ("cups".toList, "cup".toList),
   ("pt".toList, "pint".toList),
   ("pint".toList, "pint".toList),
   ("pints".toList, "pint".toList),
   ("qt".toList, "quart".toList),
   ("quart".toList, "quart".toList),
   ("quarts".toList, "quart".toList),
   ("gal".toList, "gallon".toList),
   ("gallon".toList, "gallon".toList),
   ("gallons".toList, "gallon".toList),
   ("oz".toList, "ounce".toList),
   ("ounce".toList, "ounce".toList),
   ("ounces".toList, "ounce".toList),
   ("lb".toList, "pound".toList),
   ("lbs".toList, "pound".toList),
   ("pound".toList, "pound".toList),
   ("pounds".toList, "pound".toList),
   ("in".toList, "inch".toList),
   ("inch".toList, "inch".toList),
   ("inches".toList, "inch".toList)]

/-- Association-list lookup (JS plain-object property access on these maps). -/
def assocLookup : List (List Char × List Char) → List Char → Option (List Char)
  | [], _ => none
  | (k, v) :: t, k' => if k = k' then some v else assocLookup t k'

/-- IngredientProcessor.normalizeUnit. -/
def normalizeUnit (u : List Char) : List Char :=
  match assocLookup unitMap (u.map jsToLower) with
  | some v => v
  | none => u

/-- IngredientProcessor.categoryMap, in source (insertion) order. -/
def categoryMap : List (List Char × List (List Char)) :=
  [("meat".toList,
    ["beef".toList, "pork".toList, "chicken".toList, "turkey".toList, "lamb".toList,
     "fish".toList, "salmon".toList, "tuna".toList, "shrimp".toList, "brisket".toList,
     "ribs".toList, "steak".toList, "ground beef".toList, "ground pork".toList,
     "bacon".toList, "sausage".toList]),
   ("vegetables".toList,
    ["onion".toList, "onions".toList, "carrot".toList, "carrots".toList, "celery".toList,
     "bell pepper".toList, "peppers".toList, "mushroom".toList, "mushrooms".toList,
     "tomato".toList, "tomatoes".toList, "potato".toList, "potatoes".toList,
     "ginger".toList, "jalapeño".toList, "jalapeños".toList]),
   ("spices".toList,
    ["salt".toList, "pepper".toList, "paprika".toList, "cumin".toList,
     "chili powder".toList, "garlic powder".toList, "onion powder".toList,
     "oregano".toList, "thyme".toList, "rosemary".toList, "bay leaves".toList,
     "cayenne".toList, "black pepper".toList, "white pepper".toList,
     "red pepper flakes".toList, "vanilla".toList]),
   ("dairy".toList,
    ["milk".toList, "butter".toList, "cheese".toList, "cream".toList, "yogurt".toList,
     "sour cream".toList, "cream cheese".toList]),
   ("pantry".toList,
    ["flour".toList, "sugar".toList, "brown sugar".toList, "honey".toList, "oil".toList,
     "olive oil".toList, "vinegar".toList, "soy sauce".toList, "worcestershire".toList,
     "ketchup".toList, "mustard".toList, "bbq sauce".toList, "sauce".toList])]

/-- The nested for-loops of IngredientProcessor.categorizeIngredient: first
category (in insertion order) one of whose keywords is a substring of `s`. -/
def firstMatchingCategory : List (List Char × List (List Char)) → List Char → Option (List Char)
  | [], _ => none
  | (c, kws) :: t, s => if kws.any (fun k => isInfixB k s) then some c else firstMatchingCategory t s

/-- IngredientProcessor.categorizeIngredient. -/
def categorizeIngredient (item : List Char) : List Char :=
  if item = [] then "pantry".toList
  else
    match firstMatchingCategory categoryMap (item.map jsToLower) with
    | some c => c
    | none => "pantry".toList

/-- Modelled from the spec's words for the C4 refinement: lower-case the text,
test the categories in the fixed order given by `categoryMap`, return the first
category one of whose keywords occurs as a substring, else "pantry". -/
def categorizeSpecC4 (item : List Char) : List Char :=
  match categoryMap.find? (fun p => p.2.any (fun k => isInfixB k (item.map jsToLower))) with
  | some p => p.1
  | none => "pantry".toList

/-- The `\s+\d+\/\d+` alternative of the quantity regex (mixed-number tail),
applied after the leading digit run.  Returns the matched tail and the rest. -/
def tryMixedTail (r : List Char) : Option (List Char × List Char) :=
  let ws := r.takeWhile isJsSpace
  let r2 := r.dropWhile isJsSpace
  if ws = [] then none
  else
    let ns := r2.takeWhile isDigitC
    if ns = [] then none
    else
      match r2.dropWhile isDigitC with
      | c :: t =>
        if c = '/' then
          let ms := t.takeWhile isDigitC
          if ms = [] then none
          else some (ws ++ ns ++ '/' :: ms, t.dropWhile isDigitC)
        else none
      | [] => none

/-- The quantity regex of IngredientProcessor.parseIngredient,
`^(\d+(?:\s+\d+\/\d+|\.\d+|\/\d+)?)`: returns the matched leading run and the
rest of the string, or `none` when the string does not start with a digit. -/
def matchQuantity (s : List Char) : Option (List Char × List Char) :=
  let ds := s.takeWhile isDigitC
  let r1 := s.dropWhile isDigitC
  if ds = [] then none
  else
    match tryMixedTail r1 with
    | some (m, rest) => some (ds ++ m, rest)
    | none =>
      match r1 with
      | c :: t =>
        if c = '.' then
          let fs := t.takeWhile isDigitC
          if fs = [] then some (ds, r1) else some (ds ++ '.' :: fs, t.dropWhile isDigitC)
        else if c = '/' then
          let fs := t.takeWhile isDigitC
          if fs = [] then some (ds, r1) else some (ds ++ '/' :: fs, t.dropWhile isDigitC)
        else some (ds, r1)
      | [] => some (ds, r1)

/-- The anchored mixed-number regex `^(\d+)\s+(\d+)\/(\d+)$` of
IngredientProcessor.parseFraction. -/
def matchMixed (s : List Char) : Option (ℕ × ℕ × ℕ) :=
  let ws := s.takeWhile isDigitC
  let r1 := s.dropWhile isDigitC
  if ws = [] then none
  else
    let sp := r1.takeWhile isJsSpace
    let r2 := r1.dropWhile isJsSpace
    if sp = [] then none
    else
      let ns := r2.takeWhile isDigitC
      let r3 := r2.dropWhile isDigitC
      if ns = [] then none
      else
        match r3 with
        | c :: t =>
          if c = '/' then
            let ds := t.takeWhile isDigitC
            if ds = [] then none
            else if t.dropWhile isDigitC = [] then
              some (digitsVal ws, digitsVal ns, digitsVal ds)
            else none
          else none
        | [] => none

/-- The anchored simple-fraction regex `^(\d+)\/(\d+)$` of
IngredientProcessor.parseFraction. -/
def matchFrac (s : List Char) : Option (ℕ × ℕ) :=
  let ns := s.takeWhile isDigitC
  let r1 := s.dropWhile isDigitC
  if ns = [] then none
  else
    match r1 with
    | c :: t =>
      if c = '/' then
        let ds := t.takeWhile isDigitC
        if ds = [] then none
        else if t.dropWhile isDigitC = [] then some (digitsVal ns, digitsVal ds)
        else none
      else none
    | [] => none

/-- JS `parseFloat`, without the exponent and Infinity literal forms (neither is
reachable from the quantity strings the parser feeds it): longest numeric
prefix `[+-]? (\d+ (\.\d*)? | \.\d+)`, `none` when no digits are found (NaN). -/
def jsParseFloat (s : List Char) : Option ℚ :=
  let core : List Char → ℚ → Option ℚ := fun r sgn =>
    let ds := r.takeWhile isDigitC
    let r1 := r.dropWhile isDigitC
    if ds = [] then
      match r1 with
      | c :: t =>
        if c = '.' then
          let fs := t.takeWhile isDigitC
          if fs = [] then none
          else some (sgn * ((digitsVal fs : ℚ) / 10 ^ fs.length))
        else none
      | [] => none
    else
      match r1 with
      | c :: t =>
        if c = '.' then
          let fs := t.takeWhile isDigitC
          some (sgn * ((digitsVal ds : ℚ) + (digitsVal fs : ℚ) / 10 ^ fs.length))
        else some (sgn * (digitsVal ds : ℚ))
      | [] => some (sgn * (digitsVal ds : ℚ))
  match s with
  | c :: t =>
    if c = '-' then core t (-1)
    else if c = '+' then core t 1
    else core s 1
  | [] => core s 1

/-- IngredientProcessor.parseFraction (on a string argument; the JS
`!fractionStr` guard maps the empty string to `null`). -/
def parseFraction (s : List Char) : Option ℚ :=
  if s = [] then none
  else
    let str := jsTrim s
    match matchMixed str with
    | some (w, n, d) => some ((w : ℚ) + (n : ℚ) / (d : ℚ))
    | none =>
      match matchFrac str with
      | some (n, d) => some ((n : ℚ) / (d : ℚ))
      | none => jsParseFloat str

/-- Structured ingredient record, the output of IngredientProcessor.parseIngredient.
The JS record produced by parsing carries no `consolidated` property;
`consolidated = false` models that absence. -/
structure Ingredient where
  quantity : Option ℚ
  unit : Option (List Char)
  item : List Char
  originalText : List Char
  category : List Char
  consolidated : Bool
deriving DecidableEq

/-- Quantity-extraction step of parseIngredient: the parsed quantity (if the
quantity regex matched) and the working copy with the match consumed and
trimmed. -/
def quantityStep (lowered : List Char) : Option ℚ × List Char :=
  match matchQuantity lowered with
  | some (m, rest) => (parseFraction m, jsTrim rest)
  | none => ((none : Option ℚ), lowered)

/-- Unit-extraction step of parseIngredient: attempted only when a quantity was
found; the leading `\w+` token is consumed only when it is a key of unitMap,
in which case the canonical form is recorded. -/
def unitStep (quantity : Option ℚ) (rem1 : List Char) :
    Option (List Char) × List Char :=
  let w := rem1.takeWhile isWordC
  if w ≠ [] ∧ quantity ≠ none then
    match assocLookup unitMap (w.map jsToLower) with
    | some cu => ((some cu : Option (List Char)), jsTrim (rem1.dropWhile isWordC))
    | none => ((none : Option (List Char)), rem1)
  else ((none : Option (List Char)), rem1)

/-- Body of IngredientProcessor.parseIngredient after its non-string/empty guard. -/
def parseIngredientCore (s : List Char) : Ingredient :=
  let original := jsTrim s
  let lowered := original.map jsToLower
  let qr := quantityStep lowered
  let ur := unitStep qr.1 qr.2
  let item := if ur.2 = [] then original else ur.2
  { quantity := qr.1, unit := ur.1, item := item, originalText := original,
    category := categorizeIngredient item, consolidated := false }

/-- IngredientProcessor.parseIngredient.  The JS guard
`if (!ingredientText || typeof ingredientText !== 'string') return null` maps
the empty string (falsy) to `null`; non-string arguments are outside this
string-typed model. -/
def parseIngredient (s : List Char) : Option Ingredient :=
  if s = [] then none else some (parseIngredientCore s)

/-- Consolidation grouping key, the JS template string
`` `${ingredient.item}-${ingredient.unit || 'no-unit'}` ``. -/
def keyOf (i : Ingredient) : List Char :=
  i.item ++ '-' :: jsOrOpt i.unit ("no-unit".toList)

/-- One merge step of IngredientProcessor.consolidateIngredients: quantities are
summed (and the record marked consolidated) only when both are present. -/
def mergeIng (a b : Ingredient) : Ingredient :=
  match a.quantity, b.quantity with
  | some qa, some qb => { a with quantity := some (qa + qb), consolidated := true }
  | _, _ => a

/-- Key membership in the insertion-ordered map state. -/
def hasKey : List (List Char × Ingredient) → List Char → Bool
  | [], _ => false
  | (k, _) :: t, k' => if k = k' then true else hasKey t k'

/-- Merge `i` into the entry holding key `k'` (JS `Map.prototype.get` + in-place
mutation; keys in the state are distinct, insertion order is preserved). -/
def updateKey : List (List Char × Ingredient) → List Char → Ingredient → List (List Char × Ingredient)
  | [], _, _ => []
  | (k, v) :: t, k', i => if k = k' then (k, mergeIng v i) :: t else (k, v) :: updateKey t k' i

/-- One iteration of the `ingredients.forEach` loop of consolidateIngredients;
`none` models a null/undefined array element, an empty `item` models the falsy
`!ingredient.item` guard. -/
def consStep (m : List (List Char × Ingredient)) (o : Option Ingredient) :
    List (List Char × Ingredient) :=
  match o with
  | none => m
  | some i =>
    if i.item = [] then m
    else if hasKey m (keyOf i) then updateKey m (keyOf i) i
    else m ++ [(keyOf i, i)]

/-- IngredientProcessor.consolidateIngredients on an array argument
(`Array.from(consolidated.values())` returns entries in insertion order). -/
def consolidateIngredients (l : List (Option Ingredient)) : List Ingredient :=
  (l.foldl consStep []).map Prod.snd

/-- A JS argument that may or may not be an array, for the
`Array.isArray(ingredients)` guard. -/
inductive JSArg where
  | arr (l : List (Option Ingredient))
  | notArr
deriving DecidableEq

/-- IngredientProcessor.consolidateIngredients including its non-array guard. -/
def consolidateIngredientsArg : JSArg → List Ingredient
  | .arr l => consolidateIngredients l
  | .notArr => []

/-- Elements of the input that survive the `!ingredient || !ingredient.item` skip. -/
def validEntries (l : List (Option Ingredient)) : List Ingredient :=
  l.filterMap (fun o =>
    match o with
    | some i => if i.item = [] then none else some i
    | none => none)

/-- Distinct grouping keys in first-appearance order. -/
def orderedKeys (l : List Ingredient) : List (List Char) :=
  l.foldl (fun ks i => if keyOf i ∈ ks then ks else ks ++ [keyOf i]) []

/-- All members of the group with key `k`, in input order. -/
def groupFor (l : List Ingredient) (k : List Char) : List Ingredient :=
  l.filter (fun i => keyOf i = k)

/-- Collapse one group: fold the merge step over the group starting from its
first member. -/
def collapseGroup : List Ingredient → Option Ingredient
  | [] => none
  | i :: rest => some (rest.foldl mergeIng i)

/-- Modelled from the (amended) spec's words for the C1 refinement: one output
record per distinct key in first-appearance order, each group collapsed by the
pairwise merge step from its first member. -/
def consolidateSpec (l : List (Option Ingredient)) : List Ingredient :=
  (orderedKeys (validEntries l)).filterMap (fun k => collapseGroup (groupFor (validEntries l) k))

/-- Total collapse of the group with key `k` (only used at keys whose group is
non-empty; the default is never reached in the statements below). -/
def collapse1 (v : List Ingredient) (k : List Char) : Ingredient :=
  match groupFor v k with
  | [] => { quantity := none, unit := none, item := [], originalText := [],
            category := [], consolidated := false }
  | i :: rest => rest.foldl mergeIng i

/-- The map state of the consolidation fold, described per key. -/
def stateSpec (v : List Ingredient) : List (List Char × Ingredient) :=
  (orderedKeys v).map (fun k => (k, collapse1 v k))

/-- Generic category grouping used by ShoppingListGenerator.organizeByCategory
(JS object string keys iterate in insertion order); appends `i` to the bucket
for `c`, creating the bucket at the end on first appearance. -/
def orgAdd {α : Type} : List (List Char × List α) → List Char → α → List (List Char × List α)
  | [], c, i => [(c, [i])]
  | (k, vs) :: t, c, i => if k = c then (k, vs ++ [i]) :: t else (k, vs) :: orgAdd t c i

/-- ShoppingListGenerator.organizeByCategory, generic in the item type
(the JS code only reads `item.category`, defaulted to `'pantry'`). -/
def organizeBy {α : Type} (cat : α → List Char) (items : List α) : List (List Char × List α) :=
  items.foldl (fun org i => orgAdd org (jsOr (cat i) ("pantry".toList)) i) []

/-- Recipe object as consumed by ShoppingListGenerator (`id`, `title`,
`ingredients` present; a `none` list element models a null recipe, skipped by
the generator's guard). -/
structure Recipe where
  id : List Char
  title : List Char
  ingredients : List (List Char)
deriving DecidableEq

/-- ShoppingList aggregate built by ShoppingListGenerator.createShoppingListObject
(`createdAt`, a wall-clock timestamp, is not modelled). -/
structure ShoppingList where
  title : List Char
  items : List Ingredient
  organized : List (List Char × List Ingredient)
  recipes : List (List Char)
  itemCount : ℕ
deriving DecidableEq

/-- ShoppingListGenerator.generateFromMultipleRecipes (the claims call it on a
genuine array, so only the empty-array guard of the two input guards is
reachable here). -/
def generateFromMultipleRecipes (recipes : List (Option Recipe))
    (customTitle : Option (List Char)) : Except (List Char) ShoppingList :=
  if recipes = [] then .error ("No recipes provided".toList)
  else
    let collected := recipes.foldl
      (fun (acc : List (List Char) × List Ingredient) r =>
        match r with
        | none => acc
        | some recipe =>
          (acc.1 ++ [recipe.id], acc.2 ++ recipe.ingredients.filterMap parseIngredient))
      ([], [])
    if collected.2 = [] then .error ("No valid ingredients found in recipes".toList)
    else
      let consolidated := consolidateIngredients (collected.2.map some)
      { title := (match customTitle with
                  | some t => t
                  | none => "Combined Recipes - Shopping List".toList),
        items := consolidated,
        organized := organizeBy (fun i => i.category) consolidated,
        recipes := collected.1,
        itemCount := consolidated.length : ShoppingList } |> .ok

/-- IEEE-style JS number with NaN and the infinities explicit, for the places
where the special values are observable (finite overflow to Infinity is not
modelled; no claim multiplies values anywhere near the double range). -/
inductive JSNum where
  | nan
  | inf
  | ninf
  | fin (q : ℚ)
deriving DecidableEq

/-- A JS value that may fail the `typeof multiplier !== 'number'` test. -/
inductive JSVal where
  | num (x : JSNum)
  | notNum
deriving DecidableEq

/-- JS `<=` on numbers (false whenever either side is NaN). -/
def jsLe : JSNum → JSNum → Bool
  | .nan, _ => false
  | _, .nan => false
  | .ninf, _ => true
  | _, .ninf => false
  | .inf, .inf => true
  | .inf, .fin _ => false
  | .fin _, .inf => true
  | .fin a, .fin b => decide (a ≤ b)

/-- JS multiplication with the IEEE special-value rules. -/
def jsMul : JSNum → JSNum → JSNum
  | .nan, _ => .nan
  | _, .nan => .nan
  | .fin a, .fin b => .fin (a * b)
  | .fin a, .inf => if 0 < a then .inf else if a < 0 then .ninf else .nan
  | .inf, .fin b => if 0 < b then .inf else if b < 0 then .ninf else .nan
  | .fin a, .ninf => if 0 < a then .ninf else if a < 0 then .inf else .nan
  | .ninf, .fin b => if 0 < b then .ninf else if b < 0 then .inf else .nan
  | .inf, .inf => .inf
  | .inf, .ninf => .ninf
  | .ninf, .inf => .ninf
  | .ninf, .ninf => .inf

/-- Decimal digit character. -/
def digitChar (d : ℕ) : Char := Char.ofNat (48 + d)

/-- Decimal rendering of a natural number, JS `Number.prototype.toString` on
non-negative integers. -/
def natToChars (n : ℕ) : List Char := Nat.toDigits 10 n

/-- Decimal rendering of an integer. -/
def intToChars (i : ℤ) : List Char :=
  if i < 0 then '-' :: natToChars i.natAbs else natToChars i.toNat

/-- Fractional-part digits of a rational in `[0,1)`, `fuel` digits at most. -/
def fracDigits : ℕ → ℚ → List Char
  | 0, _ => []
  | fuel + 1, r =>
    if r = 0 then []
    else
      let r10 := r * 10
      digitChar (Int.floor r10).toNat :: fracDigits fuel (r10 - (Int.floor r10 : ℚ))

/-- JS `Number.prototype.toString` on a finite number: exact for integers and
for terminating decimal expansions of at most 25 digits; longer expansions are
truncated (an approximation of the shortest-round-trip double rendering that no
theorem below ever reaches). -/
def jsNumToChars (q : ℚ) : List Char :=
  if q.den = 1 then intToChars q.num
  else
    let sgn : List Char := if q < 0 then ['-'] else []
    let a := |q|
    sgn ++ natToChars (Int.floor a).toNat ++ '.' :: fracDigits 25 (a - (Int.floor a : ℚ))

/-- Rendering of a JS number including the special values, as in the template
string `` `${multiplier}` ``. -/
def jsNumValToChars : JSNum → List Char
  | .nan => "NaN".toList
  | .inf => "Infinity".toList
  | .ninf => "-Infinity".toList
  | .fin q => jsNumToChars q

/-- Shopping-list item as consumed by ShoppingListManager.scaleQuantities. -/
structure SItem where
  quantity : Option ℚ
  unit : Option (List Char)
  item : List Char
  category : List Char
deriving DecidableEq

/-- Shopping list as consumed by ShoppingListManager.scaleQuantities (`title`
and `items` present; a `none` argument models a null list for the
`!shoppingList` guard). -/
structure SShoppingList where
  title : List Char
  items : List SItem
deriving DecidableEq

/-- Scaled item: `quantity * multiplier` under IEEE rules, plus the `scaled`
and `originalQuantity` bookkeeping the code spreads in. -/
structure ScaledItem where
  quantity : Option JSNum
  unit : Option (List Char)
  item : List Char
  category : List Char
  scaled : Bool
  originalQuantity : Option ℚ
deriving DecidableEq

/-- Result list of ShoppingListManager.scaleQuantities. -/
structure ScaledShoppingList where
  title : List Char
  items : List ScaledItem
  organized : List (List Char × List ScaledItem)
  scaleMultiplier : JSNum
deriving DecidableEq

/-- ShoppingListManager.scaleQuantities.  The guard is exactly the JS one:
`typeof multiplier !== 'number' || multiplier <= 0`; note that NaN and
+Infinity pass it. -/
def scaleQuantities (slOpt : Option SShoppingList) (m : JSVal) :
    Except (List Char) ScaledShoppingList :=
  match m with
  | .notNum => .error ("Scale multiplier must be greater than 0".toList)
  | .num x =>
    if jsLe x (.fin 0) then .error ("Scale multiplier must be greater than 0".toList)
    else
      match slOpt with
      | none => .error ("Invalid shopping list".toList)
      | some sl =>
        let scaledItems := sl.items.map (fun it =>
          { quantity := it.quantity.map (fun q => jsMul (.fin q) x),
            unit := it.unit, item := it.item, category := it.category,
            scaled := true, originalQuantity := it.quantity : ScaledItem })
        { title := sl.title ++ " (scaled ".toList ++ jsNumValToChars x ++ "x)".toList,
          items := scaledItems,
          organized := organizeBy (fun i => i.category) scaledItems,
          scaleMultiplier := x : ScaledShoppingList } |> .ok

/-- ReminderFormatter.commonFractions, keyed by the exact numeric value. -/
def commonFracStr (r : ℚ) : Option (List Char) :=
  if r = 1/4 then some ("1/4".toList)
  else if r = 33/100 then some ("1/3".toList)
  else if r = 1/2 then some ("1/2".toList)
  else if r = 67/100 then some ("2/3".toList)
  else if r = 3/4 then some ("3/4".toList)
  else none

/-- JS `Math.round` (half away from zero towards +Infinity). -/
def jsRound (q : ℚ) : ℤ := Int.floor (q + 1/2)

/-- The tolerance search of ReminderFormatter.formatAsFraction: first
denominator in the fixed list, then first numerator `1 ≤ num < denom`, with
`|decimal - num/denom| < 0.01`. -/
def fracSearch (decimal : ℚ) : Option (ℕ × ℕ) :=
  [2, 3, 4, 5, 6, 8, 10, 12, 16].findSome? (fun denom =>
    ((List.range' 1 (denom - 1)).find? (fun (num : ℕ) =>
      |decimal - (num : ℚ) / (denom : ℚ)| < 1/100)).map (fun num => (num, denom)))

/-- ReminderFormatter.formatAsFraction on a (finite, non-null) number. -/
def formatAsFractionQ (decimal : ℚ) : List Char :=
  if decimal.den = 1 then intToChars decimal.num
  else
    let rounded : ℚ := (jsRound (decimal * 100) : ℚ) / 100
    match commonFracStr rounded with
    | some s => s
    | none =>
      let mixed : Option (List Char) :=
        if 1 < decimal then
          let whole := Int.floor decimal
          match commonFracStr ((jsRound ((decimal - (whole : ℚ)) * 100) : ℚ) / 100) with
          | some fs => some (intToChars whole ++ ' ' :: fs)
          | none => none
        else none
      match mixed with
      | some s => s
      | none =>
        match fracSearch decimal with
        | some (num, denom) =>
          if 1 < decimal then
            intToChars (Int.floor decimal) ++ ' ' :: natToChars num ++ '/' :: natToChars denom
          else natToChars num ++ '/' :: natToChars denom
        | none => jsNumToChars decimal

/-- ReminderFormatter.formatAsFraction including its null guard. -/
def formatAsFraction : Option ℚ → List Char
  | none => []
  | some d => formatAsFractionQ d

/-- ReminderFormatter.formatItemText on a (non-null) item record. -/
def formatItemText (i : Ingredient) : List Char :=
  let qpart : List Char :=
    match i.quantity with
    | some q =>
      formatAsFractionQ q ++
      (match i.unit with
       | some u => if u = [] then [] else ' ' :: u
       | none => []) ++ [' ']
    | none => []
  qpart ++ jsOr i.item ("Unknown item".toList)

/-- An `items` field that may fail the `Array.isArray` test. -/
inductive ItemsField where
  | arr (l : List Ingredient)
  | notArr
deriving DecidableEq

/-- Shopping list as consumed by ReminderFormatter: `none` fields model absent
properties (a non-string `title` is not modelled separately: the claims only
need the missing/empty/whitespace title failure, which the empty string covers). -/
structure RShoppingList where
  title : List Char
  items : Option ItemsField
  organized : Option (List (List Char × List Ingredient))
deriving DecidableEq

/-- Options bag of the ReminderFormatter entry points. -/
structure RFOptions where
  organizeByCategory : Bool
  listName : Option (List Char)
  platform : Option (List Char)
deriving DecidableEq

/-- Empty options object `{}`. -/
def noOptions : RFOptions := { organizeByCategory := false, listName := none, platform := none }

/-- ReminderFormatter.validateShoppingList; `some e` is the failure reason. -/
def validateShoppingList : Option RShoppingList → Option (List Char)
  | none => some ("Shopping list is required".toList)
  | some sl =>
    if jsTrim sl.title = [] then some ("Shopping list must have a valid title".toList)
    else if sl.items = none ∧ sl.organized = none then
      some ("Shopping list must have items or organized categories".toList)
    else
      match sl.items with
      | some .notArr => some ("Shopping list items must be an array".toList)
      | _ => none

/-- Concatenation of a list of strings with a separator, as in JS array join. -/
def joinSep (l : List (List Char)) (sep : List Char) : List Char :=
  match l with
  | [] => []
  | x :: xs => xs.foldl (fun acc y => acc ++ sep ++ y) x

/-- ReminderFormatter.flattenOrganizedItems. -/
def flattenOrganized (org : List (List Char × List Ingredient)) : List Ingredient :=
  (org.map Prod.snd).flatten

/-- The organized-by-category text block of ReminderFormatter.formatForReminders:
blocks `CATEGORY:\n` + one line per item, consecutive blocks separated by a
blank line (the loop prepends `\n` for every index > 0). -/
def organizedText (org : List (List Char × List Ingredient)) : List Char :=
  joinSep
    (org.map (fun p =>
      p.1.map jsToUpper ++ ':' :: '\n' ::
        (p.2.map (fun i => formatItemText i ++ ['\n'])).flatten))
    ['\n']

/-- Result of ReminderFormatter.formatForReminders. -/
structure RFormatResult where
  reminderText : List Char
  listName : List Char
  itemCount : ℕ
deriving DecidableEq

/-- ReminderFormatter.formatForReminders.  When the flat path is taken on a
list whose `items` property is absent, the JS `forEach` throws and the catch
block returns the `Failed to format for Reminders: ...` failure; the dynamic
exception message is not modelled. -/
def formatForReminders (slOpt : Option RShoppingList) (opts : RFOptions) :
    Except (List Char) RFormatResult :=
  match validateShoppingList slOpt with
  | some e => .error e
  | none =>
    match slOpt with
    | none => .error ("Shopping list is required".toList)
    | some sl =>
      match (if opts.organizeByCategory then sl.organized else none) with
      | some org =>
        .ok { reminderText := jsTrim (organizedText org),
              listName := sl.title,
              itemCount := (org.map (fun p => p.2.length)).sum }
      | none =>
        match sl.items with
        | some (.arr l) =>
          .ok { reminderText := jsTrim ((l.map (fun i => formatItemText i ++ ['\n'])).flatten),
                listName := sl.title,
                itemCount := l.length }
        | _ => .error ("Failed to format for Reminders: items is not iterable".toList)

/-- Upper-case hexadecimal digit. -/
def hexDigitC (n : ℕ) : Char := if n < 10 then Char.ofNat (48 + n) else Char.ofNat (55 + n)

/-- UTF-8 bytes of one code point. -/
def utf8Bytes (c : Char) : List ℕ :=
  let n := c.toNat
  if n < 128 then [n]
  else if n < 2048 then [192 + n / 64, 128 + n % 64]
  else if n < 65536 then [224 + n / 4096, 128 + n / 64 % 64, 128 + n % 64]
  else [240 + n / 262144, 128 + n / 4096 % 64, 128 + n / 64 % 64, 128 + n % 64]

/-- Characters `encodeURIComponent` leaves unescaped: ASCII alphanumerics and
`- _ . ! ~ * ' ( )`. -/
def isUriUnreserved (c : Char) : Bool :=
  (48 ≤ c.toNat && c.toNat ≤ 57) || (65 ≤ c.toNat && c.toNat ≤ 90) ||
  (97 ≤ c.toNat && c.toNat ≤ 122) ||
  c.toNat = 45 || c.toNat = 95 || c.toNat = 46 || c.toNat = 33 || c.toNat = 126 ||
  c.toNat = 42 || c.toNat = 39 || c.toNat = 40 || c.toNat = 41

/-- JS `encodeURIComponent`: percent-encode the UTF-8 bytes of every character
outside the unreserved set. -/
def encodeURIComponent (s : List Char) : List Char :=
  (s.map (fun c =>
    if isUriUnreserved c then [c]
    else (utf8Bytes c).map (fun b => ['%', hexDigitC (b / 16), hexDigitC (b % 16)]) |>.flatten)).flatten

/-- Successful result of ReminderFormatter.generateReminderUrl. -/
structure RUrlResult where
  url : List Char
  fallbackUrl : List Char
  listName : List Char
  itemCount : ℕ
  shortcutRequired : Bool
  shortcutName : List Char
  platform : List Char
deriving DecidableEq

/-- ReminderFormatter.generateReminderUrl.  After validation passes, `items` is
either absent or a genuine array, so the `some .notArr` fallthrough below is
unreachable. -/
def generateReminderUrl (slOpt : Option RShoppingList) (opts : RFOptions) :
    Except (List Char) RUrlResult :=
  match validateShoppingList slOpt with
  | some e => .error e
  | none =>
    match slOpt with
    | none => .error ("Shopping list is required".toList)
    | some sl =>
      match sl.items with
      | none => .error ("Shopping list is empty".toList)
      | some .notArr => .error ("Shopping list items must be an array".toList)
      | some (.arr l) =>
        if l = [] then .error ("Shopping list is empty".toList)
        else
          let listName := (match opts.listName with
                           | some n => n
                           | none => sl.title)
          let items := (match (if opts.organizeByCategory then sl.organized else none) with
                        | some org => flattenOrganized org
                        | none => l)
          let simpleText := listName ++ '\n' :: '\n' ::
            joinSep (items.map formatItemText) ['\n']
          let fmtText := (match formatForReminders (some sl) opts with
                          | .ok r => r.reminderText
                          | .error _ => "undefined".toList)
          { url := "shortcuts://run-shortcut?name=".toList ++
              encodeURIComponent ("Add Shopping List to Reminders".toList) ++
              "&input=".toList ++ encodeURIComponent simpleText,
            fallbackUrl := "x-apple-reminderkit://REMSaveRequest?reminderText=".toList ++
              encodeURIComponent fmtText ++ "&listName=".toList ++ encodeURIComponent listName,
            listName := listName,
            itemCount := items.length,
            shortcutRequired := true,
            shortcutName := "Add Shopping List to Reminders".toList,
            platform := (match opts.platform with
                         | some p => p
                         | none => "ios".toList) : RUrlResult } |> .ok

/-- ASCII letter (either case). -/
def isAsciiLetter (c : Char) : Bool :=
  (65 ≤ c.toNat && c.toNat ≤ 90) || (97 ≤ c.toNat && c.toNat ≤ 122)

/-- Well-formed quantity literals of claim C2, with their numeric value:
a leading integer, decimal, simple fraction, or mixed number (denominators
non-zero, all components written as plain digit runs). -/
inductive QtyLit : List Char → ℚ → Prop where
  | int (ds : List Char) (h1 : ds ≠ []) (h2 : ∀ c ∈ ds, isDigitC c = true) :
      QtyLit ds (digitsVal ds)
  | dec (ds fs : List Char) (h1 : ds ≠ []) (h2 : ∀ c ∈ ds, isDigitC c = true)
      (h3 : fs ≠ []) (h4 : ∀ c ∈ fs, isDigitC c = true) :
      QtyLit (ds ++ '.' :: fs) ((digitsVal ds : ℚ) + (digitsVal fs : ℚ) / 10 ^ fs.length)
  | frac (ns ds : List Char) (h1 : ns ≠ []) (h2 : ∀ c ∈ ns, isDigitC c = true)
      (h3 : ds ≠ []) (h4 : ∀ c ∈ ds, isDigitC c = true) (h5 : digitsVal ds ≠ 0) :
      QtyLit (ns ++ '/' :: ds) ((digitsVal ns : ℚ) / (digitsVal ds : ℚ))
  | mixed (ws ns ds : List Char) (h1 : ws ≠ []) (h2 : ∀ c ∈ ws, isDigitC c = true)
      (h3 : ns ≠ []) (h4 : ∀ c ∈ ns, isDigitC c = true)
      (h5 : ds ≠ []) (h6 : ∀ c ∈ ds, isDigitC c = true) (h7 : digitsVal ds ≠ 0) :
      QtyLit (ws ++ (' ' :: (ns ++ ('/' :: ds))))
        ((digitsVal ws : ℚ) + (digitsVal ns : ℚ) / (digitsVal ds : ℚ))

/-- C3: generating a consolidated shopping list from the BBQ Ribs and BBQ Sauce
recipes succeeds and yields exactly these four items, among them brown sugar
with quantity 0.75 and salt with quantity 3, both marked consolidated. -/
theorem shoppingList_end_to_end :
    (generateFromMultipleRecipes
      [some { id := "r1".toList, title := "BBQ Ribs".toList,
              ingredients := ["2 lbs baby back ribs".toList, "1/2 cup brown sugar".toList,
                              "1 tsp salt".toList] },
       some { id := "r2".toList, title := "BBQ Sauce".toList,
              ingredients := ["1/4 cup brown sugar".toList, "2 tsp salt".toList,
                              "1 cup ketchup".toList] }] none).toOption.map
        (fun sl => sl.items.map (fun i => (i.item, i.quantity, i.consolidated))) =
      some [("baby back ribs".toList, some 2, false),
            ("brown sugar".toList, some (3/4 : ℚ), true),
            ("salt".toList, some 3, true),
            ("ketchup".toList, some 1, false)] := by with_unfolding_all decide

/-- C9: formatAsFraction inverts parseFraction on each of the five canonical
fraction strings. -/
theorem formatAsFraction_roundTrip :
    formatAsFraction (parseFraction "1/2".toList) = "1/2".toList ∧
    formatAsFraction (parseFraction "1/4".toList) = "1/4".toList ∧
    formatAsFraction (parseFraction "3/4".toList) = "3/4".toList ∧
    formatAsFraction (parseFraction "1/3".toList) = "1/3".toList ∧
    formatAsFraction (parseFraction "2/3".toList) = "2/3".toList := by
  with_unfolding_all decide

/-- C1 counterexample: in the same-key group `[quantity 1, quantity null,
quantity 2]` one member lacks a quantity, yet consolidateIngredients does sum
(output quantity 3, consolidated true) instead of keeping the first member
unchanged as the claim states. -/
theorem consolidate_claim_counterexample :
    (consolidateIngredients
      [some { quantity := some 1, unit := none, item := "a".toList,
              originalText := "a".toList, category := "pantry".toList, consolidated := false },
       some { quantity := none, unit := none, item := "a".toList,
              originalText := "a".toList, category := "pantry".toList, consolidated := false },
       some { quantity := some 2, unit := none, item := "a".toList,
              originalText := "a".toList, category := "pantry".toList, consolidated := false }]).map
        (fun i => (i.quantity, i.consolidated)) = [(some (3 : ℚ), true)] ∧
    (some (3 : ℚ), true) ≠ (some (1 : ℚ), false) := by with_unfolding_all decide

/-- C5 counterexample: on input "2 CUPS" the quantity and unit consume the whole
lower-cased working copy, so the item falls back to the trimmed original text
with its casing preserved — it is not lower-case. -/
theorem parseIngredient_item_case_counterexample :
    (parseIngredient "2 CUPS".toList).map (fun i => i.item) = some ("2 CUPS".toList) ∧
    ("2 CUPS".toList).map jsToLower ≠ "2 CUPS".toList := by with_unfolding_all decide

/-- C6 counterexample: the empty string is a string, yet parseIngredient returns
null for it (the JS `!ingredientText` guard treats the empty string as falsy). -/
theorem parseIngredient_empty_counterexample :
    parseIngredient "".toList = none := by with_unfolding_all decide

/-- C7 counterexample: +Infinity is not a finite positive number, yet
scaleQuantities accepts it (the guard only tests `multiplier <= 0`) and returns
a scaled list instead of a failure. -/
theorem scaleQuantities_infinity_counterexample :
    (scaleQuantities
      (some { title := "T".toList,
              items := [{ quantity := some 2, unit := some ("cup".toList),
                          item := "flour".toList, category := "pantry".toList }] })
      (.num .inf)).isOk = true := by with_unfolding_all decide

/-- C8 counterexample: a list with a title and organized categories but no
items field passes validateShoppingList, yet generateReminderUrl fails with
"Shopping list is empty" instead of succeeding as the claim states. -/
theorem generateReminderUrl_empty_counterexample :
    generateReminderUrl
      (some { title := "T".toList, items := none,
              organized := some [("pantry".toList,
                [{ quantity := some 1, unit := none, item := "flour".toList,
                   originalText := "flour".toList, category := "pantry".toList,
                   consolidated := false }])] }) noOptions =
      .error ("Shopping list is empty".toList) := by with_unfolding_all decide

/-- C6 (amended): parseIngredient returns a structured record for every
non-empty string. -/
theorem parseIngredient_some_of_nonempty (s : List Char) (h : s ≠ []) :
    (parseIngredient s).isSome = true := by
  simp [parseIngredient, h]

/-- Witness for the amended C6 theorem at the concrete input "x". -/
theorem parseIngredient_some_of_nonempty_witness :
    "x".toList ≠ [] ∧ (parseIngredient "x".toList).isSome = true :=
  ⟨by decide, parseIngredient_some_of_nonempty ("x".toList) (by decide)⟩

/-- C10: the non-array guard yields the empty list, and an element that is null
or has a missing/empty item field contributes nothing to the consolidation. -/
theorem consolidate_skips_invalid :
    consolidateIngredientsArg .notArr = [] ∧
    ∀ (l1 l2 : List (Option Ingredient)) (b : Option Ingredient),
      (b = none ∨ ∃ i, b = some i ∧ i.item = []) →
      consolidateIngredients (l1 ++ b :: l2) = consolidateIngredients (l1 ++ l2) := by
  refine ⟨rfl, ?_⟩
  intro l1 l2 b hb
  unfold consolidateIngredients
  have hstep : ∀ m, consStep m b = m := by
    intro m
    rcases hb with h | ⟨i, hi, hitem⟩
    · subst h; rfl
    · subst hi; simp [consStep, hitem]
  rw [List.foldl_append, List.foldl_cons, hstep, ← List.foldl_append]

/-- Witness for C10 at a concrete list with a null element. -/
theorem consolidate_skips_invalid_witness :
    consolidateIngredients
        ([some { quantity := some 1, unit := none, item := "a".toList,
                 originalText := "a".toList, category := "pantry".toList,
                 consolidated := false }] ++ none :: []) =
      consolidateIngredients
        ([some { quantity := some 1, unit := none, item := "a".toList,
                 originalText := "a".toList, category := "pantry".toList,
                 consolidated := false }] ++ []) :=
  consolidate_skips_invalid.2 _ [] none (Or.inl rfl)

/-- C7 (amended): scaleQuantities fails with the descriptive reason exactly for
a non-number multiplier or one with `multiplier <= 0` under JS comparison
(which includes -Infinity but neither NaN nor +Infinity); any multiplier
passing that guard — NaN and +Infinity included — produces a scaled list. -/
theorem scaleQuantities_guard :
    (∀ slOpt, scaleQuantities slOpt .notNum =
      .error ("Scale multiplier must be greater than 0".toList)) ∧
    (∀ slOpt x, jsLe x (.fin 0) = true →
      scaleQuantities slOpt (.num x) =
        .error ("Scale multiplier must be greater than 0".toList)) ∧
    (∀ sl x, jsLe x (.fin 0) = false → (scaleQuantities (some sl) (.num x)).isOk = true) ∧
    jsLe .nan (.fin 0) = false ∧ jsLe .inf (.fin 0) = false ∧ jsLe .ninf (.fin 0) = true := by
  refine ⟨fun slOpt => rfl, ?_, ?_, rfl, rfl, rfl⟩
  · intro slOpt x h
    simp [scaleQuantities, h]
  · intro sl x h
    simp [scaleQuantities, h, Except.isOk, Except.toBool]

/-- Witness for C7 at the NaN multiplier and a concrete list. -/
theorem scaleQuantities_guard_witness :
    jsLe .nan (.fin 0) = false ∧
    (scaleQuantities
      (some { title := "T".toList,
              items := [{ quantity := some 2, unit := some ("cup".toList),
                          item := "flour".toList, category := "pantry".toList }] })
      (.num .nan)).isOk = true :=
  ⟨by decide, scaleQuantities_guard.2.2.1 _ .nan (by decide)⟩

/-- Bridge between the source's nested category loops and the first-match
description used by the spec-side definition. -/
theorem firstMatching_eq_find (m : List (List Char × List (List Char))) (s : List Char) :
    firstMatchingCategory m s =
      (m.find? (fun p => p.2.any (fun k => isInfixB k s))).map Prod.fst := by
  induction m with
  | nil => rfl
  | cons p t ih =>
    obtain ⟨c, kws⟩ := p
    by_cases h : kws.any (fun k => isInfixB k s) = true
    · simp [firstMatchingCategory, h, List.find?_cons_of_pos]
    · rw [firstMatchingCategory, if_neg (by simpa using h), ih,
        List.find?_cons_of_neg _ (by simpa using h)]

/-- C4: categorizeIngredient agrees everywhere with the spec's description
(lower-case, fixed category order, first substring match, default pantry);
in particular "onion" matches inside "green onions", and the empty text is
pantry. -/
theorem categorize_matches_spec :
    (∀ item, categorizeIngredient item = categorizeSpecC4 item) ∧
    categorizeIngredient ("green onions".toList) = "vegetables".toList ∧
    categorizeIngredient [] = "pantry".toList := by
  refine ⟨?_, by decide, by decide⟩
  intro item
  by_cases h : item = []
  · subst h; decide
  · rw [categorizeIngredient, if_neg h, categorizeSpecC4, firstMatching_eq_find]
    cases categoryMap.find? (fun p => p.2.any (fun k => isInfixB k (item.map jsToLower))) with
    | none => rfl
    | some p => rfl

theorem orderedKeys_append_one (v : List Ingredient) (i : Ingredient) :
    orderedKeys (v ++ [i]) =
      if keyOf i ∈ orderedKeys v then orderedKeys v else orderedKeys v ++ [keyOf i] := by
  unfold orderedKeys
  rw [List.foldl_append]
  rfl

theorem mem_orderedKeysAux (v : List Ingredient) (init : List (List Char)) (k : List Char) :
    k ∈ v.foldl (fun ks i => if keyOf i ∈ ks then ks else ks ++ [keyOf i]) init ↔
      k ∈ init ∨ k ∈ v.map keyOf := by
  induction v generalizing init with
  | nil => simp
  | cons i t ih =>
    rw [List.foldl_cons, ih]
    by_cases h : keyOf i ∈ init
    · simp only [if_pos h, List.map_cons, List.mem_cons]
      constructor
      · rintro (hk | hk)
        · exact Or.inl hk
        · exact Or.inr (Or.inr hk)
      · rintro (hk | hk | hk)
        · exact Or.inl hk
        · exact Or.inl (hk ▸ h)
        · exact Or.inr hk
    · simp only [if_neg h, List.mem_append, List.mem_singleton, List.map_cons, List.mem_cons]
      tauto

theorem mem_orderedKeys (v : List Ingredient) (k : List Char) :
    k ∈ orderedKeys v ↔ k ∈ v.map keyOf := by
  rw [orderedKeys, mem_orderedKeysAux]
  simp

theorem orderedKeys_nodup_aux (v : List Ingredient) (init : List (List Char))
    (h : init.Nodup) :
    (v.foldl (fun ks i => if keyOf i ∈ ks then ks else ks ++ [keyOf i]) init).Nodup := by
  induction v generalizing init with
  | nil => exact h
  | cons i t ih =>
    rw [List.foldl_cons]
    by_cases hm : keyOf i ∈ init
    · rw [if_pos hm]; exact ih init h
    · rw [if_neg hm]
      refine ih _ ?_
      simp [List.nodup_append, h, hm]

theorem orderedKeys_nodup (v : List Ingredient) : (orderedKeys v).Nodup :=
  orderedKeys_nodup_aux v [] List.nodup_nil

theorem groupFor_append_one (v : List Ingredient) (i : Ingredient) (k : List Char) :
    groupFor (v ++ [i]) k = groupFor v k ++ (if keyOf i = k then [i] else []) := by
  unfold groupFor
  rw [List.filter_append]
  by_cases h : keyOf i = k <;> simp [h]

theorem groupFor_eq_nil (v : List Ingredient) (k : List Char) (h : k ∉ v.map keyOf) :
    groupFor v k = [] := by
  unfold groupFor
  rw [List.filter_eq_nil_iff]
  intro i hi
  simp only [decide_eq_true_eq]
  intro e
  exact h (e ▸ List.mem_map_of_mem keyOf hi)

theorem groupFor_ne_nil (v : List Ingredient) (k : List Char) (h : k ∈ v.map keyOf) :
    groupFor v k ≠ [] := by
  obtain ⟨i, hi, rfl⟩ := List.mem_map.mp h
  unfold groupFor
  intro hnil
  have := List.filter_eq_nil_iff.mp hnil i hi
  simp at this

theorem collapse1_append_ne (v : List Ingredient) (i : Ingredient) (k : List Char)
    (h : keyOf i ≠ k) : collapse1 (v ++ [i]) k = collapse1 v k := by
  unfold collapse1
  rw [groupFor_append_one, if_neg h, List.append_nil]

theorem collapse1_append_self (v : List Ingredient) (i : Ingredient) (k : List Char)
    (hne : groupFor v k ≠ []) (he : keyOf i = k) :
    collapse1 (v ++ [i]) k = mergeIng (collapse1 v k) i := by
  unfold collapse1
  rw [groupFor_append_one, if_pos he]
  cases hg : groupFor v k with
  | nil => exact absurd hg hne
  | cons j rest =>
    show List.foldl mergeIng j (rest ++ [i]) = mergeIng (List.foldl mergeIng j rest) i
    rw [List.foldl_append]
    rfl

theorem collapse1_append_new (v : List Ingredient) (i : Ingredient) (k : List Char)
    (hnil : groupFor v k = []) (he : keyOf i = k) :
    collapse1 (v ++ [i]) k = i := by
  unfold collapse1
  rw [groupFor_append_one, if_pos he, hnil]
  rfl

theorem hasKey_map (ks : List (List Char)) (f : List Char → Ingredient) (k : List Char) :
    hasKey (ks.map (fun k' => (k', f k'))) k = decide (k ∈ ks) := by
  induction ks with
  | nil => rfl
  | cons a t ih =>
    rw [List.map_cons, hasKey]
    by_cases h : a = k
    · simp [h]
    · simp only [if_neg h, ih]
      have : (k ∈ a :: t) ↔ (k ∈ t) := by
        constructor
        · rintro (_ | hk)
          · exact absurd rfl h
          · assumption
        · exact fun hk => List.mem_cons_of_mem a hk
      simp [this]

theorem updateKey_map (ks : List (List Char)) (f : List Char → Ingredient)
    (k : List Char) (i : Ingredient) (hnd : ks.Nodup) :
    updateKey (ks.map (fun k' => (k', f k'))) k i =
      ks.map (fun k' => (k', if k' = k then mergeIng (f k') i else f k')) := by
  induction ks with
  | nil => rfl
  | cons a t ih =>
    rw [List.map_cons, updateKey, List.map_cons]
    by_cases h : a = k
    · subst h
      rw [if_pos rfl]
      have htail : t.map (fun k' => (k', if k' = a then mergeIng (f k') i else f k')) =
          t.map (fun k' => (k', f k')) := by
        apply List.map_congr_left
        intro x hx
        have hxk : x ≠ a := fun e => (List.nodup_cons.mp hnd).1 (e ▸ hx)
        simp [hxk]
      rw [htail, if_pos rfl]
    · rw [if_neg h, if_neg h, ih (List.nodup_cons.mp hnd).2]


theorem validEntries_append_none (l : List (Option Ingredient)) :
    validEntries (l ++ [none]) = validEntries l := by
  unfold validEntries
  rw [List.filterMap_append]
  simp

theorem validEntries_append_skip (l : List (Option Ingredient)) (i : Ingredient)
    (h : i.item = []) : validEntries (l ++ [some i]) = validEntries l := by
  unfold validEntries
  rw [List.filterMap_append]
  simp [h]

theorem validEntries_append_keep (l : List (Option Ingredient)) (i : Ingredient)
    (h : i.item ≠ []) : validEntries (l ++ [some i]) = validEntries l ++ [i] := by
  unfold validEntries
  rw [List.filterMap_append]
  simp [h]

theorem foldl_consStep_eq (l : List (Option Ingredient)) :
    l.foldl consStep [] = stateSpec (validEntries l) := by
  induction l using List.reverseRecOn with
  | nil => rfl
  | append_singleton l' o ih =>
    rw [List.foldl_append, List.foldl_cons, List.foldl_nil, ih]
    cases o with
    | none => rw [validEntries_append_none]; rfl
    | some i =>
      by_cases hit : i.item = []
      · rw [validEntries_append_skip l' i hit]
        show (if i.item = [] then stateSpec (validEntries l')
              else if hasKey (stateSpec (validEntries l')) (keyOf i) then
                updateKey (stateSpec (validEntries l')) (keyOf i) i
              else stateSpec (validEntries l') ++ [(keyOf i, i)]) = stateSpec (validEntries l')
        rw [if_pos hit]
      · rw [validEntries_append_keep l' i hit]
        have hgoal : consStep (stateSpec (validEntries l')) (some i) =
            stateSpec (validEntries l' ++ [i]) := by
          set v := validEntries l' with hv
          show (if i.item = [] then stateSpec v
                else if hasKey (stateSpec v) (keyOf i) then
                  updateKey (stateSpec v) (keyOf i) i
                else stateSpec v ++ [(keyOf i, i)]) = stateSpec (v ++ [i])
          rw [if_neg hit]
          by_cases hk : keyOf i ∈ orderedKeys v
          · have hhk : hasKey (stateSpec v) (keyOf i) = true := by
              rw [stateSpec, hasKey_map]
              exact decide_eq_true hk
            rw [if_pos hhk, stateSpec, updateKey_map _ _ _ _ (orderedKeys_nodup v),
              stateSpec, orderedKeys_append_one, if_pos hk]
            apply List.map_congr_left
            intro k' hk'
            by_cases he : k' = keyOf i
            · rw [if_pos he,
                collapse1_append_self v i k'
                  (groupFor_ne_nil v k' ((mem_orderedKeys v k').mp hk')) he.symm]
            · rw [if_neg he, collapse1_append_ne v i k' (fun e => he e.symm)]
          · have hhk : hasKey (stateSpec v) (keyOf i) = false := by
              rw [stateSpec, hasKey_map]
              exact decide_eq_false hk
            rw [if_neg (by rw [hhk]; exact Bool.false_ne_true), stateSpec, stateSpec,
              orderedKeys_append_one, if_neg hk, List.map_append]
            congr 1
            · apply List.map_congr_left
              intro k' hk'
              rw [collapse1_append_ne v i k' (fun e => hk (e ▸ hk'))]
            · rw [List.map_singleton,
                collapse1_append_new v i (keyOf i)
                  (groupFor_eq_nil v (keyOf i)
                    (fun hm => hk ((mem_orderedKeys v (keyOf i)).mpr hm))) rfl]
        exact hgoal

theorem consolidate_eq_spec_aux (v : List Ingredient) (ks : List (List Char))
    (h : ∀ k ∈ ks, groupFor v k ≠ []) :
    ks.filterMap (fun k => collapseGroup (groupFor v k)) =
      ks.map (fun k => collapse1 v k) := by
  induction ks with
  | nil => rfl
  | cons a t ih =>
    rw [List.filterMap_cons, List.map_cons]
    cases hg : groupFor v a with
    | nil => exact absurd hg (h a (List.mem_cons_self a t))
    | cons j rest =>
      rw [show collapseGroup (j :: rest) = some (rest.foldl mergeIng j) from rfl]
      rw [ih (fun k hk => h k (List.mem_cons_of_mem a hk))]
      rw [collapse1, hg]

/-- C1 (amended): consolidateIngredients equals the group-by description — one
record per distinct key string (item ++ "-" ++ (unit or "no-unit")) in
first-appearance order, each group collapsed by folding the pairwise merge step
(sum-and-mark only when both quantities are present) from its first member. -/
theorem consolidate_eq_spec (l : List (Option Ingredient)) :
    consolidateIngredients l = consolidateSpec l := by
  unfold consolidateIngredients consolidateSpec
  rw [foldl_consStep_eq,
    consolidate_eq_spec_aux (validEntries l) (orderedKeys (validEntries l))
      (fun k hk => groupFor_ne_nil _ _ ((mem_orderedKeys _ _).mp hk))]
  unfold stateSpec
  rw [List.map_map]
  rfl

theorem toNat_ofNat_small (n : ℕ) (h : n < 55296) : (Char.ofNat n).toNat = n := by
  rw [Char.ofNat, dif_pos (Or.inl h)]
  show (UInt32.ofNat' n _).toNat = n
  simp [UInt32.ofNat', UInt32.toNat, BitVec.toNat_ofNat]

theorem jsToLower_idem (c : Char) : jsToLower (jsToLower c) = jsToLower c := by
  unfold jsToLower
  by_cases h : 65 ≤ c.toNat ∧ c.toNat ≤ 90
  · rw [if_pos h]
    obtain ⟨h1, h2⟩ := h
    have hval : (Char.ofNat (c.toNat + 32)).toNat = c.toNat + 32 :=
      toNat_ofNat_small _ (by omega)
    rw [if_neg]
    rw [hval]
    omega
  · rw [if_neg h, if_neg h]

theorem lower_of_mem_lowered {c : Char} {x : List Char}
    (h : c ∈ x.map jsToLower) : jsToLower c = c := by
  obtain ⟨d, _, rfl⟩ := List.mem_map.mp h
  exact jsToLower_idem d

theorem mem_of_trimStart {c : Char} {l : List Char} (h : c ∈ trimStart l) : c ∈ l :=
  (List.dropWhile_suffix isJsSpace).mem h

theorem mem_of_trimEnd {c : Char} {l : List Char} (h : c ∈ trimEnd l) : c ∈ l := by
  unfold trimEnd at h
  rw [List.mem_reverse] at h
  exact List.mem_reverse.mp ((List.dropWhile_suffix isJsSpace).mem h)

theorem mem_of_jsTrim {c : Char} {l : List Char} (h : c ∈ jsTrim l) : c ∈ l :=
  mem_of_trimStart (mem_of_trimEnd h)

theorem tryMixedTail_suffix {r m rest : List Char}
    (h : tryMixedTail r = some (m, rest)) : rest <:+ r := by
  unfold tryMixedTail at h
  by_cases hws : r.takeWhile isJsSpace = []
  · simp [hws] at h
  · rw [if_neg hws] at h
    by_cases hns : (r.dropWhile isJsSpace).takeWhile isDigitC = []
    · simp [hns] at h
    · rw [if_neg hns] at h
      cases hd : (r.dropWhile isJsSpace).dropWhile isDigitC with
      | nil => rw [hd] at h; simp at h
      | cons a t =>
        rw [hd] at h
        dsimp only at h
        by_cases ha : a = '/'
        · rw [if_pos ha] at h
          by_cases hms : t.takeWhile isDigitC = []
          · simp [hms] at h
          · rw [if_neg hms] at h
            injection h with h
            have h2 : rest = t.dropWhile isDigitC := congrArg Prod.snd h |>.symm
            rw [h2]
            have h3 : t.dropWhile isDigitC <:+ t := List.dropWhile_suffix isDigitC
            have h4 : t <:+ a :: t := ⟨[a], rfl⟩
            have h5 : (a :: t) <:+ r.dropWhile isJsSpace := by
              rw [← hd]
              exact List.dropWhile_suffix isDigitC
            exact h3.trans (h4.trans (h5.trans (List.dropWhile_suffix isJsSpace)))
        · rw [if_neg ha] at h
          exact absurd h (by simp)

theorem matchQuantity_suffix {s m rest : List Char}
    (h : matchQuantity s = some (m, rest)) : rest <:+ s := by
  unfold matchQuantity at h
  by_cases hds : s.takeWhile isDigitC = []
  · simp [hds] at h
  · rw [if_neg hds] at h
    have hr1 : s.dropWhile isDigitC <:+ s := List.dropWhile_suffix isDigitC
    cases hmt : tryMixedTail (s.dropWhile isDigitC) with
    | some p =>
      obtain ⟨pm, prest⟩ := p
      rw [hmt] at h
      injection h with h
      have h2 : rest = prest := congrArg Prod.snd h |>.symm
      rw [h2]
      exact (tryMixedTail_suffix hmt).trans hr1
    | none =>
      rw [hmt] at h
      cases hr : s.dropWhile isDigitC with
      | nil =>
        rw [hr] at h
        injection h with h
        have h2 : rest = s.dropWhile isDigitC := by
          rw [hr]; exact congrArg Prod.snd h |>.symm
        rw [h2]; exact hr1
      | cons a t =>
        rw [hr] at h
        dsimp only at h
        have ht0 : t <:+ a :: t := ⟨[a], rfl⟩
        have ht : t <:+ s := ht0.trans (hr ▸ hr1)
        have htd : t.dropWhile isDigitC <:+ s := (List.dropWhile_suffix isDigitC).trans ht
        have hself : a :: t <:+ s := hr ▸ hr1
        by_cases hdot : a = '.'
        · rw [if_pos hdot] at h
          by_cases hfs : t.takeWhile isDigitC = []
          · rw [if_pos hfs] at h
            injection h with h
            have h2 : rest = a :: t := congrArg Prod.snd h |>.symm
            rw [h2]; exact hself
          · rw [if_neg hfs] at h
            injection h with h
            have h2 : rest = t.dropWhile isDigitC := congrArg Prod.snd h |>.symm
            rw [h2]; exact htd
        · rw [if_neg hdot] at h
          by_cases hsl : a = '/'
          · rw [if_pos hsl] at h
            by_cases hfs : t.takeWhile isDigitC = []
            · rw [if_pos hfs] at h
              injection h with h
              have h2 : rest = a :: t := congrArg Prod.snd h |>.symm
              rw [h2]; exact hself
            · rw [if_neg hfs] at h
              injection h with h
              have h2 : rest = t.dropWhile isDigitC := congrArg Prod.snd h |>.symm
              rw [h2]; exact htd
          · rw [if_neg hsl] at h
            injection h with h
            have h2 : rest = a :: t := congrArg Prod.snd h |>.symm
            rw [h2]; exact hself

theorem quantityStep_mem {l : List Char} {c : Char} (h : c ∈ (quantityStep l).2) : c ∈ l := by
  unfold quantityStep at h
  cases hm : matchQuantity l with
  | none => rw [hm] at h; exact h
  | some p =>
    obtain ⟨m, rest⟩ := p
    rw [hm] at h
    exact (matchQuantity_suffix hm).mem (mem_of_jsTrim h)

theorem unitStep_mem {q : Option ℚ} {rem1 : List Char} {c : Char}
    (h : c ∈ (unitStep q rem1).2) : c ∈ rem1 := by
  unfold unitStep at h
  dsimp only at h
  by_cases hcond : rem1.takeWhile isWordC ≠ [] ∧ q ≠ none
  · rw [if_pos hcond] at h
    cases hl : assocLookup unitMap ((rem1.takeWhile isWordC).map jsToLower) with
    | some cu =>
      rw [hl] at h
      exact (List.dropWhile_suffix isWordC).mem (mem_of_jsTrim h)
    | none => rw [hl] at h; exact h
  · rw [if_neg hcond] at h; exact h

theorem parseIngredientCore_item (s : List Char) :
    (parseIngredientCore s).item.map jsToLower = (parseIngredientCore s).item ∨
    (parseIngredientCore s).item = jsTrim s := by
  have hitem : (parseIngredientCore s).item =
      (if (unitStep (quantityStep ((jsTrim s).map jsToLower)).1
             (quantityStep ((jsTrim s).map jsToLower)).2).2 = []
       then jsTrim s
       else (unitStep (quantityStep ((jsTrim s).map jsToLower)).1
               (quantityStep ((jsTrim s).map jsToLower)).2).2) := rfl
  rw [hitem]
  by_cases h2 : (unitStep (quantityStep ((jsTrim s).map jsToLower)).1
      (quantityStep ((jsTrim s).map jsToLower)).2).2 = []
  · rw [if_pos h2]
    exact Or.inr rfl
  · rw [if_neg h2]
    left
    have hall : ∀ c ∈ (unitStep (quantityStep ((jsTrim s).map jsToLower)).1
        (quantityStep ((jsTrim s).map jsToLower)).2).2, jsToLower c = (fun a => a) c :=
      fun c hc => lower_of_mem_lowered (quantityStep_mem (unitStep_mem hc))
    rw [List.map_congr_left hall, List.map_id']

/-- C5 (amended): the item field is lower-case whenever some text remains after
stripping quantity and unit; in the fallback case it is the trimmed original
text with its casing preserved. -/
theorem parseIngredient_item_lower_or_original (s : List Char) (r : Ingredient)
    (h : parseIngredient s = some r) :
    r.item.map jsToLower = r.item ∨ r.item = jsTrim s := by
  unfold parseIngredient at h
  by_cases hs : s = []
  · rw [if_pos hs] at h; cases h
  · rw [if_neg hs] at h
    injection h with h
    exact h ▸ parseIngredientCore_item s

/-- Witness for the amended C5 theorem at the input "1 cup milk". -/
theorem parseIngredient_item_lower_or_original_witness :
    ("milk".toList).map jsToLower = "milk".toList ∨
    "milk".toList = jsTrim ("1 cup milk".toList) :=
  parseIngredient_item_lower_or_original ("1 cup milk".toList)
    { quantity := some 1, unit := some ("cup".toList), item := "milk".toList,
      originalText := "1 cup milk".toList, category := "dairy".toList, consolidated := false }
    (by with_unfolding_all decide)

theorem isDigitC_not_space {c : Char} (h : isDigitC c = true) : isJsSpace c = false := by
  simp [isDigitC] at h
  simp [isJsSpace]
  omega

theorem isDigitC_word {c : Char} (h : isDigitC c = true) : isWordC c = true := by
  simp [isDigitC] at h
  simp [isWordC]
  omega

theorem isDigitC_lower_fixed {c : Char} (h : isDigitC c = true) : jsToLower c = c := by
  simp [isDigitC] at h
  unfold jsToLower
  rw [if_neg]
  omega

theorem isAsciiLowerC_lower_fixed {c : Char} (h : isAsciiLowerC c = true) :
    jsToLower c = c := by
  simp [isAsciiLowerC] at h
  unfold jsToLower
  rw [if_neg]
  omega

theorem isAsciiLowerC_word {c : Char} (h : isAsciiLowerC c = true) : isWordC c = true := by
  simp [isAsciiLowerC] at h
  simp [isWordC]
  omega

theorem isAsciiLowerC_not_space {c : Char} (h : isAsciiLowerC c = true) :
    isJsSpace c = false := by
  simp [isAsciiLowerC] at h
  simp [isJsSpace]
  omega

theorem isAsciiLowerC_not_digit {c : Char} (h : isAsciiLowerC c = true) :
    isDigitC c = false := by
  simp [isAsciiLowerC] at h
  simp [isDigitC]
  omega

theorem isAsciiLetter_toLower_lower {c : Char} (h : isAsciiLetter c = true) :
    isAsciiLowerC (jsToLower c) = true := by
  simp [isAsciiLetter] at h
  unfold jsToLower
  rcases h with h | h
  · rw [if_pos (by omega)]
    simp [isAsciiLowerC, toNat_ofNat_small (c.toNat + 32) (by omega)]
    omega
  · rw [if_neg (by omega)]
    simp [isAsciiLowerC]
    omega

theorem takeWhile_append_all {p : Char → Bool} (ds r : List Char)
    (h1 : ∀ c ∈ ds, p c = true) (h2 : ∀ c, r.head? = some c → p c = false) :
    (ds ++ r).takeWhile p = ds ∧ (ds ++ r).dropWhile p = r := by
  induction ds with
  | nil =>
    cases r with
    | nil => exact ⟨rfl, rfl⟩
    | cons c t =>
      have := h2 c rfl
      simp [List.takeWhile_cons, List.dropWhile_cons, this]
  | cons a ds ih =>
    have ha : p a = true := h1 a (List.mem_cons_self a ds)
    have := ih (fun c hc => h1 c (List.mem_cons_of_mem a hc))
    simp [List.takeWhile_cons, List.dropWhile_cons, ha, this.1, this.2]

theorem takeWhile_all {p : Char → Bool} (l : List Char) (h : ∀ c ∈ l, p c = true) :
    l.takeWhile p = l ∧ l.dropWhile p = [] := by
  have := takeWhile_append_all l [] h (by intro c hc; cases hc)
  simpa using this

theorem trimStart_eq_self {l : List Char}
    (h : ∀ c, l.head? = some c → isJsSpace c = false) : trimStart l = l := by
  unfold trimStart
  cases l with
  | nil => rfl
  | cons c t => simp [List.dropWhile_cons, h c rfl]

theorem trimEnd_eq_self {l : List Char}
    (h : ∀ c, l.reverse.head? = some c → isJsSpace c = false) : trimEnd l = l := by
  unfold trimEnd
  cases hr : l.reverse with
  | nil =>
    have : l = [] := by simpa using congrArg List.reverse hr
    simp [this]
  | cons c t =>
    rw [List.dropWhile_cons, h c (by rw [hr]; rfl)]
    simp [← hr]

theorem jsTrim_eq_self {l : List Char}
    (h1 : ∀ c, l.head? = some c → isJsSpace c = false)
    (h2 : ∀ c, l.reverse.head? = some c → isJsSpace c = false) : jsTrim l = l := by
  unfold jsTrim
  rw [trimStart_eq_self h1, trimEnd_eq_self h2]

theorem head_not_space_of_jsTrim {l : List Char} (h : jsTrim l = l) :
    ∀ c, l.head? = some c → isJsSpace c = false := by
  have hlen2 : (trimStart l).length ≤ l.length := (List.dropWhile_sublist _).length_le
  have hlen1 : (jsTrim l).length ≤ (trimStart l).length := by
    unfold jsTrim trimEnd
    simpa using (List.dropWhile_sublist (l := (trimStart l).reverse) isJsSpace).length_le
  have hts : trimStart l = l := by
    have : (trimStart l).length = l.length := by
      have := congrArg List.length h
      omega
    exact (List.dropWhile_sublist _).eq_of_length this
  intro c hc
  cases l with
  | nil => cases hc
  | cons a t =>
    injection hc with hc
    rw [← hc]
    unfold trimStart at hts
    rw [List.dropWhile_cons] at hts
    by_cases hsp : isJsSpace a = true
    · rw [if_pos hsp] at hts
      have hd : (t.dropWhile isJsSpace).length ≤ t.length :=
        (List.dropWhile_sublist _).length_le
      have := congrArg List.length hts
      simp at this
      omega
    · simpa using hsp

theorem last_not_space_of_jsTrim {l : List Char} (h : jsTrim l = l) :
    ∀ c, l.reverse.head? = some c → isJsSpace c = false := by
  have hts : trimStart l = l := by
    have hlen2 : (trimStart l).length ≤ l.length := (List.dropWhile_sublist _).length_le
    have hlen1 : (jsTrim l).length ≤ (trimStart l).length := by
      unfold jsTrim trimEnd
      simpa using (List.dropWhile_sublist (l := (trimStart l).reverse) isJsSpace).length_le
    have : (trimStart l).length = l.length := by
      have := congrArg List.length h
      omega
    exact (List.dropWhile_sublist _).eq_of_length this
  have hte : trimEnd l = l := by
    unfold jsTrim at h
    rwa [hts] at h
  intro c hc
  unfold trimEnd at hte
  have hrev : l.reverse.dropWhile isJsSpace = l.reverse := by
    have := congrArg List.reverse hte
    simpa using this
  cases hr : l.reverse with
  | nil => rw [hr] at hc; cases hc
  | cons a t =>
    rw [hr] at hc
    injection hc with hc
    rw [← hc]
    rw [hr, List.dropWhile_cons] at hrev
    by_cases hsp : isJsSpace a = true
    · rw [if_pos hsp] at hrev
      have hd : (t.dropWhile isJsSpace).length ≤ t.length :=
        (List.dropWhile_sublist _).length_le
      have := congrArg List.length hrev
      simp at this
      omega
    · simpa using hsp

theorem takeWhile_head_nil {p : Char → Bool} {y : List Char}
    (h : ∀ c, y.head? = some c → p c = false) :
    y.takeWhile p = [] ∧ y.dropWhile p = y := by
  have := takeWhile_append_all ([] : List Char) y (by intro c hc; cases hc) h
  simpa using this

theorem tryMixedTail_not_space {r : List Char}
    (h : ∀ c, r.head? = some c → isJsSpace c = false) : tryMixedTail r = none := by
  unfold tryMixedTail
  dsimp only
  rw [(takeWhile_head_nil h).1, if_pos rfl]

theorem tryMixedTail_space_nondigit {y : List Char}
    (hy1 : ∀ c, y.head? = some c → isDigitC c = false)
    (hy2 : ∀ c, y.head? = some c → isJsSpace c = false) :
    tryMixedTail (' ' :: y) = none := by
  unfold tryMixedTail
  dsimp only
  rw [List.takeWhile_cons, List.dropWhile_cons]
  have hsp : isJsSpace ' ' = true := by decide
  rw [hsp]
  simp only [if_pos rfl, if_true]
  rw [(takeWhile_head_nil hy2).1, (takeWhile_head_nil hy2).2,
    (takeWhile_head_nil hy1).1]
  simp

theorem matchQuantity_int (ds y : List Char) (h1 : ds ≠ [])
    (h2 : ∀ c ∈ ds, isDigitC c = true)
    (hy1 : ∀ c, y.head? = some c → isDigitC c = false)
    (hy2 : ∀ c, y.head? = some c → isJsSpace c = false) :
    matchQuantity (ds ++ ' ' :: y) = some (ds, ' ' :: y) := by
  have hsplit := takeWhile_append_all ds (' ' :: y) h2
    (by intro c hc; injection hc with hc; rw [← hc]; decide)
  unfold matchQuantity
  dsimp only
  rw [hsplit.1, hsplit.2, if_neg h1, tryMixedTail_space_nondigit hy1 hy2]
  dsimp only
  rw [if_neg (by decide : ¬(' ' = '.')), if_neg (by decide : ¬(' ' = '/'))]

theorem matchQuantity_dec (ds fs y : List Char) (h1 : ds ≠ [])
    (h2 : ∀ c ∈ ds, isDigitC c = true) (h3 : fs ≠ [])
    (h4 : ∀ c ∈ fs, isDigitC c = true) :
    matchQuantity (ds ++ ('.' :: (fs ++ (' ' :: y)))) =
      some (ds ++ ('.' :: fs), ' ' :: y) := by
  have hsplit := takeWhile_append_all ds ('.' :: (fs ++ (' ' :: y))) h2
    (by intro c hc; injection hc with hc; rw [← hc]; decide)
  have hfs := takeWhile_append_all fs (' ' :: y) h4
    (by intro c hc; injection hc with hc; rw [← hc]; decide)
  unfold matchQuantity
  dsimp only
  rw [hsplit.1, hsplit.2, if_neg h1,
    tryMixedTail_not_space (r := '.' :: (fs ++ (' ' :: y)))
      (by intro c hc; injection hc with hc; rw [← hc]; decide)]
  dsimp only
  rw [if_pos rfl, hfs.1, if_neg h3, hfs.2]

theorem matchQuantity_frac (ns ds y : List Char) (h1 : ns ≠ [])
    (h2 : ∀ c ∈ ns, isDigitC c = true) (h3 : ds ≠ [])
    (h4 : ∀ c ∈ ds, isDigitC c = true) :
    matchQuantity (ns ++ ('/' :: (ds ++ (' ' :: y)))) =
      some (ns ++ ('/' :: ds), ' ' :: y) := by
  have hsplit := takeWhile_append_all ns ('/' :: (ds ++ (' ' :: y))) h2
    (by intro c hc; injection hc with hc; rw [← hc]; decide)
  have hds := takeWhile_append_all ds (' ' :: y) h4
    (by intro c hc; injection hc with hc; rw [← hc]; decide)
  unfold matchQuantity
  dsimp only
  rw [hsplit.1, hsplit.2, if_neg h1,
    tryMixedTail_not_space (r := '/' :: (ds ++ (' ' :: y)))
      (by intro c hc; injection hc with hc; rw [← hc]; decide)]
  dsimp only
  rw [if_neg (by decide : ¬('/' = '.')), if_pos rfl, hds.1, if_neg h3, hds.2]

theorem tryMixedTail_mixed (ns ds y : List Char) (h3 : ns ≠ [])
    (h4 : ∀ c ∈ ns, isDigitC c = true) (h5 : ds ≠ [])
    (h6 : ∀ c ∈ ds, isDigitC c = true) :
    tryMixedTail (' ' :: (ns ++ ('/' :: (ds ++ (' ' :: y))))) =
      some (' ' :: (ns ++ ('/' :: ds)), ' ' :: y) := by
  have hhead : ∀ c, (ns ++ ('/' :: (ds ++ (' ' :: y)))).head? = some c →
      isJsSpace c = false := by
    intro c hc
    cases ns with
    | nil => exact absurd rfl h3
    | cons n0 nt =>
      rw [List.cons_append] at hc
      injection hc with hc
      rw [← hc]
      exact isDigitC_not_space (h4 n0 (List.mem_cons_self _ _))
  have hns := takeWhile_append_all ns ('/' :: (ds ++ (' ' :: y))) h4
    (by intro c hc; injection hc with hc; rw [← hc]; decide)
  have hds := takeWhile_append_all ds (' ' :: y) h6
    (by intro c hc; injection hc with hc; rw [← hc]; decide)
  unfold tryMixedTail
  dsimp only
  rw [List.takeWhile_cons, List.dropWhile_cons,
    (show isJsSpace ' ' = true from by decide)]
  simp only [if_true]
  rw [(takeWhile_head_nil hhead).1, (takeWhile_head_nil hhead).2]
  simp only [List.cons_ne_nil, if_false, if_neg]
  rw [hns.1, hns.2, if_neg h3]
  dsimp only
  rw [if_pos rfl, hds.1, if_neg h5, hds.2]
  simp

theorem matchQuantity_mixed (ws ns ds y : List Char) (h1 : ws ≠ [])
    (h2 : ∀ c ∈ ws, isDigitC c = true) (h3 : ns ≠ [])
    (h4 : ∀ c ∈ ns, isDigitC c = true) (h5 : ds ≠ [])
    (h6 : ∀ c ∈ ds, isDigitC c = true) :
    matchQuantity (ws ++ (' ' :: (ns ++ ('/' :: (ds ++ (' ' :: y)))))) =
      some (ws ++ (' ' :: (ns ++ ('/' :: ds))), ' ' :: y) := by
  have hsplit := takeWhile_append_all ws (' ' :: (ns ++ ('/' :: (ds ++ (' ' :: y))))) h2
    (by intro c hc; injection hc with hc; rw [← hc]; decide)
  unfold matchQuantity
  dsimp only
  rw [hsplit.1, hsplit.2, if_neg h1, tryMixedTail_mixed ns ds y h3 h4 h5 h6]

theorem isDigitC_ne_special {c : Char} (h : isDigitC c = true) :
    c ≠ '-' ∧ c ≠ '+' ∧ c ≠ '.' ∧ c ≠ '/' := by
  refine ⟨?_, ?_, ?_, ?_⟩ <;> intro e <;> rw [e] at h <;> exact absurd h (by decide)

theorem head_nospace_of_digits {l : List Char} (h : ∀ c ∈ l, isDigitC c = true) :
    ∀ c, l.head? = some c → isJsSpace c = false := by
  intro c hc
  cases l with
  | nil => cases hc
  | cons a t =>
    injection hc with hc
    rw [← hc]
    exact isDigitC_not_space (h a (List.mem_cons_self _ _))

theorem revhead_append {x z : List Char} (hz : z ≠ []) (c : Char)
    (hc : (x ++ z).reverse.head? = some c) : z.reverse.head? = some c := by
  rw [List.reverse_append] at hc
  cases hzr : z.reverse with
  | nil => exact absurd (by simpa using congrArg List.reverse hzr) hz
  | cons a t =>
    rw [hzr, List.cons_append] at hc
    injection hc with hc
    rw [← hc]
    rfl

theorem revhead_mem {z : List Char} (c : Char) (hc : z.reverse.head? = some c) : c ∈ z := by
  rw [← List.mem_reverse]
  cases hzr : z.reverse with
  | nil => rw [hzr] at hc; cases hc
  | cons a t =>
    rw [hzr] at hc
    injection hc with hc
    rw [← hc]
    exact List.mem_cons_self _ _

theorem jsTrim_digits_end {x z : List Char} (hz : z ≠ [])
    (hzd : ∀ c ∈ z, isDigitC c = true)
    (hhead : ∀ c, (x ++ z).head? = some c → isJsSpace c = false) :
    jsTrim (x ++ z) = x ++ z := by
  apply jsTrim_eq_self hhead
  intro c hc
  exact isDigitC_not_space (hzd c (revhead_mem c (revhead_append hz c hc)))

theorem jsParseFloat_digits (a : Char) (t : List Char) (hm : a ≠ '-') (hp : a ≠ '+')
    (h1 : (a :: t) ≠ [])
    (hall1 : (a :: t).takeWhile isDigitC = a :: t)
    (hall2 : (a :: t).dropWhile isDigitC = []) :
    jsParseFloat (a :: t) = some (1 * (digitsVal (a :: t) : ℚ)) := by
  unfold jsParseFloat
  dsimp only
  rw [if_neg hm, if_neg hp]
  rw [hall1, hall2, if_neg h1]

theorem parseFraction_digits (ds : List Char) (h1 : ds ≠ [])
    (h2 : ∀ c ∈ ds, isDigitC c = true) :
    parseFraction ds = some ((digitsVal ds : ℚ)) := by
  have htrim : jsTrim ds = ds := by
    have := jsTrim_digits_end (x := []) h1 h2
    simpa using this (by simpa using head_nospace_of_digits h2)
  have hall := takeWhile_all ds h2
  unfold parseFraction
  rw [if_neg h1, htrim]
  dsimp only
  have hmm : matchMixed ds = none := by
    unfold matchMixed
    dsimp only
    rw [hall.1, hall.2, if_neg h1]
    simp
  have hmf : matchFrac ds = none := by
    unfold matchFrac
    dsimp only
    rw [hall.1, hall.2, if_neg h1]
  simp only [hmm, hmf]
  cases ds with
  | nil => exact absurd rfl h1
  | cons a t =>
    have ha := h2 a (List.mem_cons_self _ _)
    obtain ⟨hm, hp, _, _⟩ := isDigitC_ne_special ha
    have hall2 := takeWhile_all (a :: t) h2
    rw [jsParseFloat_digits a t hm hp h1 hall2.1 hall2.2, one_mul]

theorem matchMixed_nospace_after_digits (ds r : List Char) (h1 : ds ≠ [])
    (h2 : ∀ c ∈ ds, isDigitC c = true)
    (hr1 : ∀ c, r.head? = some c → isDigitC c = false)
    (hr2 : ∀ c, r.head? = some c → isJsSpace c = false) :
    matchMixed (ds ++ r) = none := by
  have hsplit := takeWhile_append_all ds r h2 hr1
  unfold matchMixed
  dsimp only
  rw [hsplit.1, hsplit.2, if_neg h1, (takeWhile_head_nil hr2).1, if_pos rfl]

theorem matchFrac_dec_none (ds fs : List Char) (h1 : ds ≠ [])
    (h2 : ∀ c ∈ ds, isDigitC c = true) :
    matchFrac (ds ++ ('.' :: fs)) = none := by
  have hsplit := takeWhile_append_all ds ('.' :: fs) h2
    (by intro c hc; injection hc with hc; rw [← hc]; decide)
  unfold matchFrac
  dsimp only
  rw [hsplit.1, hsplit.2, if_neg h1]
  dsimp only
  rw [if_neg (by decide : ¬('.' = '/'))]

theorem jsParseFloat_dec (ds fs : List Char) (h1 : ds ≠ [])
    (h2 : ∀ c ∈ ds, isDigitC c = true) (h4 : ∀ c ∈ fs, isDigitC c = true) :
    jsParseFloat (ds ++ ('.' :: fs)) =
      some (1 * ((digitsVal ds : ℚ) + (digitsVal fs : ℚ) / 10 ^ fs.length)) := by
  have hsplit := takeWhile_append_all ds ('.' :: fs) h2
    (by intro c hc; injection hc with hc; rw [← hc]; decide)
  have hfs := takeWhile_all fs h4
  cases ds with
  | nil => exact absurd rfl h1
  | cons a t =>
    have ha := h2 a (List.mem_cons_self _ _)
    obtain ⟨hm, hp, _, _⟩ := isDigitC_ne_special ha
    rw [List.cons_append] at hsplit ⊢
    unfold jsParseFloat
    dsimp only
    rw [if_neg hm, if_neg hp, hsplit.1, hsplit.2,
      if_neg (by exact List.cons_ne_nil a t)]
    dsimp only
    rw [if_pos rfl, hfs.1]

theorem parseFraction_dec (ds fs : List Char) (h1 : ds ≠ [])
    (h2 : ∀ c ∈ ds, isDigitC c = true) (h3 : fs ≠ [])
    (h4 : ∀ c ∈ fs, isDigitC c = true) :
    parseFraction (ds ++ ('.' :: fs)) =
      some ((digitsVal ds : ℚ) + (digitsVal fs : ℚ) / 10 ^ fs.length) := by
  have hne : ds ++ ('.' :: fs) ≠ [] := by
    cases ds with
    | nil => exact absurd rfl h1
    | cons a t => exact List.cons_ne_nil _ _
  have htrim : jsTrim (ds ++ ('.' :: fs)) = ds ++ ('.' :: fs) := by
    have hh : ∀ c, (ds ++ ('.' :: fs)).head? = some c → isJsSpace c = false := by
      intro c hc
      cases ds with
      | nil => exact absurd rfl h1
      | cons a t =>
        rw [List.cons_append] at hc
        injection hc with hc
        rw [← hc]
        exact isDigitC_not_space (h2 a (List.mem_cons_self _ _))
    have : ('.' :: fs) = ['.'] ++ fs := rfl
    apply jsTrim_eq_self hh
    intro c hc
    have h5 : ('.' :: fs) ≠ [] := List.cons_ne_nil _ _
    have h6 := revhead_append h5 c hc
    rw [this] at h6
    have h7 := revhead_append h3 c h6
    exact isDigitC_not_space (h4 c (revhead_mem c h7))
  unfold parseFraction
  rw [if_neg hne, htrim]
  dsimp only
  rw [matchMixed_nospace_after_digits ds ('.' :: fs) h1 h2
    (by intro c hc; injection hc with hc; rw [← hc]; decide)
    (by intro c hc; injection hc with hc; rw [← hc]; decide)]
  rw [matchFrac_dec_none ds fs h1 h2]
  rw [jsParseFloat_dec ds fs h1 h2 h4, one_mul]

theorem matchFrac_frac (ns ds : List Char) (h1 : ns ≠ [])
    (h2 : ∀ c ∈ ns, isDigitC c = true) (h3 : ds ≠ [])
    (h4 : ∀ c ∈ ds, isDigitC c = true) :
    matchFrac (ns ++ ('/' :: ds)) = some (digitsVal ns, digitsVal ds) := by
  have hsplit := takeWhile_append_all ns ('/' :: ds) h2
    (by intro c hc; injection hc with hc; rw [← hc]; decide)
  have hds := takeWhile_all ds h4
  unfold matchFrac
  dsimp only
  rw [hsplit.1, hsplit.2, if_neg h1]
  dsimp only
  rw [if_pos rfl, hds.1, if_neg h3, hds.2, if_pos rfl]

theorem parseFraction_frac (ns ds : List Char) (h1 : ns ≠ [])
    (h2 : ∀ c ∈ ns, isDigitC c = true) (h3 : ds ≠ [])
    (h4 : ∀ c ∈ ds, isDigitC c = true) :
    parseFraction (ns ++ ('/' :: ds)) = some ((digitsVal ns : ℚ) / (digitsVal ds : ℚ)) := by
  have hne : ns ++ ('/' :: ds) ≠ [] := by
    cases ns with
    | nil => exact absurd rfl h1
    | cons a t => exact List.cons_ne_nil _ _
  have htrim : jsTrim (ns ++ ('/' :: ds)) = ns ++ ('/' :: ds) := by
    have hh : ∀ c, (ns ++ ('/' :: ds)).head? = some c → isJsSpace c = false := by
      intro c hc
      cases ns with
      | nil => exact absurd rfl h1
      | cons a t =>
        rw [List.cons_append] at hc
        injection hc with hc
        rw [← hc]
        exact isDigitC_not_space (h2 a (List.mem_cons_self _ _))
    apply jsTrim_eq_self hh
    intro c hc
    have h5 : ('/' :: ds) ≠ [] := List.cons_ne_nil _ _
    have h6 := revhead_append h5 c hc
    have h7 := revhead_append (x := ['/']) (z := ds) h3 c h6
    exact isDigitC_not_space (h4 c (revhead_mem c h7))
  unfold parseFraction
  rw [if_neg hne, htrim]
  dsimp only
  rw [matchMixed_nospace_after_digits ns ('/' :: ds) h1 h2
    (by intro c hc; injection hc with hc; rw [← hc]; decide)
    (by intro c hc; injection hc with hc; rw [← hc]; decide)]
  rw [matchFrac_frac ns ds h1 h2 h3 h4]

theorem matchMixed_mixed (ws ns ds : List Char) (h1 : ws ≠ [])
    (h2 : ∀ c ∈ ws, isDigitC c = true) (h3 : ns ≠ [])
    (h4 : ∀ c ∈ ns, isDigitC c = true) (h5 : ds ≠ [])
    (h6 : ∀ c ∈ ds, isDigitC c = true) :
    matchMixed (ws ++ (' ' :: (ns ++ ('/' :: ds)))) =
      some (digitsVal ws, digitsVal ns, digitsVal ds) := by
  have hsplit := takeWhile_append_all ws (' ' :: (ns ++ ('/' :: ds))) h2
    (by intro c hc; injection hc with hc; rw [← hc]; decide)
  have hX : ∀ c, (ns ++ ('/' :: ds)).head? = some c → isJsSpace c = false := by
    intro c hc
    cases ns with
    | nil => exact absurd rfl h3
    | cons n0 nt =>
      rw [List.cons_append] at hc
      injection hc with hc
      rw [← hc]
      exact isDigitC_not_space (h4 n0 (List.mem_cons_self _ _))
  have hns := takeWhile_append_all ns ('/' :: ds) h4
    (by intro c hc; injection hc with hc; rw [← hc]; decide)
  have hds := takeWhile_all ds h6
  unfold matchMixed
  dsimp only
  rw [hsplit.1, hsplit.2, if_neg h1, List.takeWhile_cons, List.dropWhile_cons,
    (show isJsSpace ' ' = true from by decide)]
  simp only [if_true]
  rw [(takeWhile_head_nil hX).1, (takeWhile_head_nil hX).2]
  simp only [List.cons_ne_nil, if_false, if_neg]
  rw [hns.1, hns.2, if_neg h3]
  dsimp only
  rw [if_pos rfl, hds.1, if_neg h5, hds.2, if_pos rfl]

theorem parseFraction_mixed (ws ns ds : List Char) (h1 : ws ≠ [])
    (h2 : ∀ c ∈ ws, isDigitC c = true) (h3 : ns ≠ [])
    (h4 : ∀ c ∈ ns, isDigitC c = true) (h5 : ds ≠ [])
    (h6 : ∀ c ∈ ds, isDigitC c = true) :
    parseFraction (ws ++ (' ' :: (ns ++ ('/' :: ds)))) =
      some ((digitsVal ws : ℚ) + (digitsVal ns : ℚ) / (digitsVal ds : ℚ)) := by
  have hne : ws ++ (' ' :: (ns ++ ('/' :: ds))) ≠ [] := by
    cases ws with
    | nil => exact absurd rfl h1
    | cons a t => exact List.cons_ne_nil _ _
  have htrim : jsTrim (ws ++ (' ' :: (ns ++ ('/' :: ds)))) =
      ws ++ (' ' :: (ns ++ ('/' :: ds))) := by
    have hh : ∀ c, (ws ++ (' ' :: (ns ++ ('/' :: ds)))).head? = some c →
        isJsSpace c = false := by
      intro c hc
      cases ws with
      | nil => exact absurd rfl h1
      | cons a t =>
        rw [List.cons_append] at hc
        injection hc with hc
        rw [← hc]
        exact isDigitC_not_space (h2 a (List.mem_cons_self _ _))
    apply jsTrim_eq_self hh
    intro c hc
    have e1 : (' ' :: (ns ++ ('/' :: ds))) ≠ [] := List.cons_ne_nil _ _
    have h6' := revhead_append e1 c hc
    have hR : ns ++ ('/' :: ds) ≠ [] := by simp
    have h7 := revhead_append (x := [' ']) (z := ns ++ ('/' :: ds)) hR c h6'
    have h8 := revhead_append (x := ns) (z := '/' :: ds) (List.cons_ne_nil _ _) c h7
    have h9 := revhead_append (x := ['/']) (z := ds) h5 c h8
    exact isDigitC_not_space (h6 c (revhead_mem c h9))
  unfold parseFraction
  rw [if_neg hne, htrim]
  dsimp only
  rw [matchMixed_mixed ws ns ds h1 h2 h3 h4 h5 h6]

theorem map_lower_digits {l : List Char} (h : ∀ c ∈ l, isDigitC c = true) :
    l.map jsToLower = l := by
  rw [List.map_congr_left (g := fun a => a)
    (fun c hc => isDigitC_lower_fixed (h c hc)), List.map_id']

theorem map_lower_ascii {l : List Char} (h : ∀ c ∈ l, isAsciiLowerC c = true) :
    l.map jsToLower = l := by
  rw [List.map_congr_left (g := fun a => a)
    (fun c hc => isAsciiLowerC_lower_fixed (h c hc)), List.map_id']

theorem trimStart_cons_space {x : List Char}
    (hx : ∀ c, x.head? = some c → isJsSpace c = false) :
    trimStart (' ' :: x) = x := by
  unfold trimStart
  rw [List.dropWhile_cons, if_pos (by decide)]
  exact (takeWhile_head_nil hx).2

theorem parseIngredient_assemble
    (q : List Char) (v : ℚ)
    (u cu : List Char) (hu : assocLookup unitMap u = some cu) (hu0 : u ≠ [])
    (hul : ∀ c ∈ u, isAsciiLowerC c = true)
    (i : List Char) (hi0 : i ≠ []) (hi1 : i.map jsToLower = i) (hi2 : jsTrim i = i)
    (hq0 : q ≠ [])
    (hqhead : ∀ c, q.head? = some c → isDigitC c = true)
    (hqlower : q.map jsToLower = q)
    (hmatch : matchQuantity (q ++ (' ' :: (u ++ (' ' :: i)))) =
      some (q, ' ' :: (u ++ (' ' :: i))))
    (hparse : parseFraction q = some v) :
    parseIngredient (q ++ (' ' :: (u ++ (' ' :: i)))) =
      some { quantity := some v, unit := some cu, item := i,
             originalText := q ++ (' ' :: (u ++ (' ' :: i))),
             category := categorizeIngredient i, consolidated := false } := by
  have huhead : ∀ c, u.head? = some c → isAsciiLowerC c = true := by
    intro c hc
    cases u with
    | nil => cases hc
    | cons a t => injection hc with hc; rw [← hc]; exact hul a (List.mem_cons_self _ _)
  have hihead := head_not_space_of_jsTrim hi2
  have hirev := last_not_space_of_jsTrim hi2
  have hSne : q ++ (' ' :: (u ++ (' ' :: i))) ≠ [] := by
    cases q with
    | nil => exact absurd rfl hq0
    | cons a t => exact List.cons_ne_nil _ _
  have hStrim : jsTrim (q ++ (' ' :: (u ++ (' ' :: i)))) =
      q ++ (' ' :: (u ++ (' ' :: i))) := by
    apply jsTrim_eq_self
    · intro c hc
      cases q with
      | nil => exact absurd rfl hq0
      | cons a t =>
        rw [List.cons_append] at hc
        injection hc with hc
        exact isDigitC_not_space (hqhead c (by rw [← hc]; rfl))
    · intro c hc
      have e1 := revhead_append (x := q) (z := ' ' :: (u ++ (' ' :: i)))
        (List.cons_ne_nil _ _) c hc
      have e2 := revhead_append (x := [' ']) (z := u ++ (' ' :: i))
        (by cases u with
            | nil => exact List.cons_ne_nil _ _
            | cons a t => exact fun e => by cases e) c e1
      have e3 := revhead_append (x := u) (z := ' ' :: i) (List.cons_ne_nil _ _) c e2
      have e4 := revhead_append (x := [' ']) (z := i) hi0 c e3
      exact hirev c e4
  have hSlower : (q ++ (' ' :: (u ++ (' ' :: i)))).map jsToLower =
      q ++ (' ' :: (u ++ (' ' :: i))) := by
    rw [List.map_append, List.map_cons, List.map_append, List.map_cons,
      hqlower, map_lower_ascii hul, hi1]
    rfl
  have hqsv : quantityStep (q ++ (' ' :: (u ++ (' ' :: i)))) =
      (some v, u ++ (' ' :: i)) := by
    unfold quantityStep
    rw [hmatch]
    show (parseFraction q, jsTrim (' ' :: (u ++ (' ' :: i)))) = (some v, u ++ (' ' :: i))
    rw [hparse]
    have htr : jsTrim (' ' :: (u ++ (' ' :: i))) = u ++ (' ' :: i) := by
      unfold jsTrim
      rw [trimStart_cons_space (by
        intro c hc
        cases u with
        | nil => exact absurd rfl hu0
        | cons a t =>
          rw [List.cons_append] at hc
          injection hc with hc
          exact isAsciiLowerC_not_space (huhead c (by rw [← hc]; rfl)))]
      apply trimEnd_eq_self
      intro c hc
      have e3 := revhead_append (x := u) (z := ' ' :: i) (List.cons_ne_nil _ _) c hc
      have e4 := revhead_append (x := [' ']) (z := i) hi0 c e3
      exact hirev c e4
    rw [htr]
  have husv : unitStep (some v) (u ++ (' ' :: i)) = (some cu, i) := by
    unfold unitStep
    dsimp only
    have hw := takeWhile_append_all (p := isWordC) u (' ' :: i)
      (fun c hc => isAsciiLowerC_word (hul c hc))
      (by intro c hc; injection hc with hc; rw [← hc]; decide)
    rw [hw.1, hw.2]
    rw [if_pos ⟨hu0, by exact fun e => by cases e⟩]
    rw [map_lower_ascii hul, hu]
    have htr2 : jsTrim (' ' :: i) = i := by
      unfold jsTrim
      rw [trimStart_cons_space hihead]
      exact trimEnd_eq_self hirev
    rw [htr2]
  unfold parseIngredient
  rw [if_neg hSne]
  unfold parseIngredientCore
  dsimp only
  rw [hStrim, hSlower, hqsv]
  dsimp only
  rw [husv]
  dsimp only
  rw [if_neg hi0]

theorem qtyLit_ne_nil {q : List Char} {v : ℚ} (hq : QtyLit q v) : q ≠ [] := by
  cases hq with
  | int ds h1 h2 => exact h1
  | dec ds fs h1 h2 h3 h4 => cases ds with
    | nil => exact absurd rfl h1
    | cons a t => exact List.cons_ne_nil _ _
  | frac ns ds h1 h2 h3 h4 h5 => cases ns with
    | nil => exact absurd rfl h1
    | cons a t => exact List.cons_ne_nil _ _
  | mixed ws ns ds h1 h2 h3 h4 h5 h6 h7 => cases ws with
    | nil => exact absurd rfl h1
    | cons a t => exact List.cons_ne_nil _ _

theorem head_digit_of_append {ds r : List Char} (h1 : ds ≠ [])
    (h2 : ∀ c ∈ ds, isDigitC c = true) :
    ∀ c, (ds ++ r).head? = some c → isDigitC c = true := by
  intro c hc
  cases ds with
  | nil => exact absurd rfl h1
  | cons a t =>
    rw [List.cons_append] at hc
    injection hc with hc
    rw [← hc]
    exact h2 a (List.mem_cons_self _ _)

theorem qtyLit_head_digit {q : List Char} {v : ℚ} (hq : QtyLit q v) :
    ∀ c, q.head? = some c → isDigitC c = true := by
  cases hq with
  | int ds h1 h2 =>
    intro c hc
    have := head_digit_of_append (r := []) h1 h2 c
    rw [List.append_nil] at this
    exact this hc
  | dec ds fs h1 h2 h3 h4 => exact head_digit_of_append h1 h2
  | frac ns ds h1 h2 h3 h4 h5 => exact head_digit_of_append h1 h2
  | mixed ws ns ds h1 h2 h3 h4 h5 h6 h7 => exact head_digit_of_append h1 h2

theorem qtyLit_lower {q : List Char} {v : ℚ} (hq : QtyLit q v) :
    q.map jsToLower = q := by
  cases hq with
  | int ds h1 h2 => exact map_lower_digits h2
  | dec ds fs h1 h2 h3 h4 =>
    rw [List.map_append, List.map_cons, map_lower_digits h2, map_lower_digits h4]
    rfl
  | frac ns ds h1 h2 h3 h4 h5 =>
    rw [List.map_append, List.map_cons, map_lower_digits h2, map_lower_digits h4]
    rfl
  | mixed ws ns ds h1 h2 h3 h4 h5 h6 h7 =>
    rw [List.map_append, List.map_cons, List.map_append, List.map_cons,
      map_lower_digits h2, map_lower_digits h4, map_lower_digits h6]
    rfl

theorem qtyLit_parseFraction {q : List Char} {v : ℚ} (hq : QtyLit q v) :
    parseFraction q = some v := by
  cases hq with
  | int ds h1 h2 => exact parseFraction_digits _ h1 h2
  | dec ds fs h1 h2 h3 h4 => exact parseFraction_dec ds fs h1 h2 h3 h4
  | frac ns ds h1 h2 h3 h4 h5 => exact parseFraction_frac ns ds h1 h2 h3 h4
  | mixed ws ns ds h1 h2 h3 h4 h5 h6 h7 =>
    exact parseFraction_mixed ws ns ds h1 h2 h3 h4 h5 h6

theorem qtyLit_matchQuantity {q : List Char} {v : ℚ} (hq : QtyLit q v)
    (y : List Char)
    (hy1 : ∀ c, y.head? = some c → isDigitC c = false)
    (hy2 : ∀ c, y.head? = some c → isJsSpace c = false) :
    matchQuantity (q ++ (' ' :: y)) = some (q, ' ' :: y) := by
  cases hq with
  | int ds h1 h2 => exact matchQuantity_int _ y h1 h2 hy1 hy2
  | dec ds fs h1 h2 h3 h4 =>
    have heq : (ds ++ ('.' :: fs)) ++ (' ' :: y) = ds ++ ('.' :: (fs ++ (' ' :: y))) := by
      simp
    rw [heq]
    exact matchQuantity_dec ds fs y h1 h2 h3 h4
  | frac ns ds h1 h2 h3 h4 h5 =>
    have heq : (ns ++ ('/' :: ds)) ++ (' ' :: y) = ns ++ ('/' :: (ds ++ (' ' :: y))) := by
      simp
    rw [heq]
    exact matchQuantity_frac ns ds y h1 h2 h3 h4
  | mixed ws ns ds h1 h2 h3 h4 h5 h6 h7 =>
    have heq : (ws ++ (' ' :: (ns ++ ('/' :: ds)))) ++ (' ' :: y) =
        ws ++ (' ' :: (ns ++ ('/' :: (ds ++ (' ' :: y))))) := by
      simp
    rw [heq]
    exact matchQuantity_mixed ws ns ds y h1 h2 h3 h4 h5 h6

/-- C2: a well-formed "qty unit item" line parses to exactly the expected
quantity value, canonical unit, and item text. -/
theorem parseIngredient_wellFormed
    (q : List Char) (v : ℚ) (hq : QtyLit q v)
    (u cu : List Char) (hu : assocLookup unitMap u = some cu) (hu0 : u ≠ [])
    (hul : ∀ c ∈ u, isAsciiLowerC c = true)
    (i : List Char) (hi0 : i ≠ []) (hi1 : i.map jsToLower = i) (hi2 : jsTrim i = i) :
    parseIngredient (q ++ (' ' :: (u ++ (' ' :: i)))) =
      some { quantity := some v, unit := some cu, item := i,
             originalText := q ++ (' ' :: (u ++ (' ' :: i))),
             category := categorizeIngredient i, consolidated := false } := by
  have hyhead : ∀ c, (u ++ (' ' :: i)).head? = some c → isAsciiLowerC c = true := by
    intro c hc
    cases u with
    | nil => exact absurd rfl hu0
    | cons a t =>
      rw [List.cons_append] at hc
      injection hc with hc
      rw [← hc]
      exact hul a (List.mem_cons_self _ _)
  exact parseIngredient_assemble q v u cu hu hu0 hul i hi0 hi1 hi2
    (qtyLit_ne_nil hq) (qtyLit_head_digit hq) (qtyLit_lower hq)
    (qtyLit_matchQuantity hq (u ++ (' ' :: i))
      (fun c hc => isAsciiLowerC_not_digit (hyhead c hc))
      (fun c hc => isAsciiLowerC_not_space (hyhead c hc)))
    (qtyLit_parseFraction hq)

/-- Witness for C2 at the spec's example "2 1/4 lbs ground beef": quantity 2.25,
unit "pound", item "ground beef", category "meat". -/
theorem parseIngredient_wellFormed_witness :
    parseIngredient ("2 1/4 lbs ground beef".toList) =
      some { quantity := some (9/4 : ℚ), unit := some ("pound".toList),
             item := "ground beef".toList,
             originalText := "2 1/4 lbs ground beef".toList,
             category := "meat".toList, consolidated := false } := by
  have h := parseIngredient_wellFormed (['2', ' ', '1', '/', '4'])
    ((digitsVal ['2'] : ℚ) + (digitsVal ['1'] : ℚ) / (digitsVal ['4'] : ℚ))
    (QtyLit.mixed ['2'] ['1'] ['4'] (by decide) (by decide) (by decide)
      (by decide) (by decide) (by decide) (by decide))
    ("lbs".toList) ("pound".toList) (by decide) (by decide) (by decide)
    ("ground beef".toList) (by decide) (by with_unfolding_all decide)
    (by with_unfolding_all decide)
  refine Eq.trans (by exact h) ?_
  with_unfolding_all decide

/-- C8 (amended): generateReminderUrl fails with a descriptive error when the
list is absent, has a blank title, has neither items nor organized categories,
has a non-array items field, or — additionally — has an absent or empty items
array (even when organized categories exist); with a valid title and a
non-empty items array it succeeds, returning both URLs, the resolved list name
and the item count. -/
theorem generateReminderUrl_behavior :
    (∀ opts, generateReminderUrl none opts =
      .error ("Shopping list is required".toList)) ∧
    (∀ sl opts, jsTrim sl.title = [] →
      generateReminderUrl (some sl) opts =
        .error ("Shopping list must have a valid title".toList)) ∧
    (∀ sl opts, jsTrim sl.title ≠ [] → sl.items = none → sl.organized = none →
      generateReminderUrl (some sl) opts =
        .error ("Shopping list must have items or organized categories".toList)) ∧
    (∀ sl opts, jsTrim sl.title ≠ [] → sl.items = some .notArr →
      generateReminderUrl (some sl) opts =
        .error ("Shopping list items must be an array".toList)) ∧
    (∀ sl org opts, jsTrim sl.title ≠ [] → sl.items = none → sl.organized = some org →
      generateReminderUrl (some sl) opts = .error ("Shopping list is empty".toList)) ∧
    (∀ sl opts, jsTrim sl.title ≠ [] → sl.items = some (.arr []) →
      generateReminderUrl (some sl) opts = .error ("Shopping list is empty".toList)) ∧
    (∀ sl l, jsTrim sl.title ≠ [] → sl.items = some (.arr l) → l ≠ [] →
      ∃ r, generateReminderUrl (some sl) noOptions = .ok r ∧
        r.listName = sl.title ∧ r.itemCount = l.length ∧
        r.shortcutRequired = true ∧ r.platform = "ios".toList) := by
  refine ⟨fun opts => rfl, ?_, ?_, ?_, ?_, ?_, ?_⟩
  · intro sl opts h
    simp [generateReminderUrl, validateShoppingList, h]
  · intro sl opts h1 h2 h3
    simp [generateReminderUrl, validateShoppingList, h1, h2, h3]
  · intro sl opts h1 h2
    simp [generateReminderUrl, validateShoppingList, h1, h2]
  · intro sl org opts h1 h2 h3
    simp [generateReminderUrl, validateShoppingList, h1, h2, h3]
  · intro sl opts h1 h2
    simp [generateReminderUrl, validateShoppingList, h1, h2]
  · intro sl l h1 h2 h3
    obtain ⟨t, it, org⟩ := sl
    simp only [] at h2
    subst h2
    have hval : validateShoppingList (some ⟨t, some (.arr l), org⟩) = none := by
      simp [validateShoppingList]
      intro h
      exact absurd h h1
    simp only [generateReminderUrl, hval]
    simp only [if_neg h3]
    exact ⟨_, rfl, rfl, rfl, rfl, rfl⟩

/-- Witness for C8 at a concrete one-item list. -/
theorem generateReminderUrl_behavior_witness :
    ∃ r, generateReminderUrl
        (some { title := "T".toList,
                items := some (.arr
                  [{ quantity := some 1, unit := none, item := "flour".toList,
                     originalText := "flour".toList, category := "pantry".toList,
                     consolidated := false }]),
                organized := none }) noOptions = .ok r ∧
      r.listName = "T".toList ∧
      r.itemCount = [({ quantity := some 1, unit := none, item := "flour".toList,
                        originalText := "flour".toList, category := "pantry".toList,
                        consolidated := false } : Ingredient)].length ∧
      r.shortcutRequired = true ∧ r.platform = "ios".toList :=
  generateReminderUrl_behavior.2.2.2.2.2.2 _ _ (by decide) rfl (by decide)
